import Mathlib

/-! nyms-agent: key directory, mail pipeline and service facade

A shallow embedding of the Go packages `keymgr` and `protocol` of nyms-agent.

Conventions of the embedding

* Go pointers to records become values; an in-place mutation becomes a
  returned, updated value.  A pointer that the source compares with `nil`
  becomes an `Option`.
* `[]byte` is a list of byte values (`List Nat`), a Go `string` is a `String`.
* `uint64` key ids are `Nat`.
* The OpenPGP library (`go.crypto/openpgp`), the mail library (`pgpmail`) and
  the Go standard library are not part of the repository.  Every capability the
  source consumes from them is a field of a collaborator record (`Crypto`,
  `Mail`), so that each theorem holds for every behaviour of the collaborator,
  or names the part of its contract it relies on as a hypothesis.
-/

set_option autoImplicit false
set_option linter.dupNamespace false
set_option linter.unusedVariables false

namespace Nyms

/-! ## Key entity model (the parts of `openpgp.Entity` the source reads) -/

/-- The record `packet.UserId`: the parsed parts of an identity string. -/
structure UserId where
  Name : String
  Comment : String
  Email : String
  deriving DecidableEq, Repr

/-- The record `openpgp.Identity`: the full identity string and its parsed form. -/
structure Identity where
  Name : String
  UserId : UserId
  deriving DecidableEq, Repr

/-- The algorithm-specific public key, as far as `renderKeyTag` inspects it:
an RSA key with the bit length of its modulus, a DSA key with the bit length of
its prime, or anything else. -/
inductive KeyMaterial where
  | rsa (bitLen : Nat)
  | dsa (bitLen : Nat)
  | other
  deriving DecidableEq, Repr

/-- The record `packet.PublicKey`. -/
structure PublicKey where
  KeyId : Nat
  Fingerprint : List Nat
  IsSubkey : Bool
  PublicKey : KeyMaterial
  deriving DecidableEq, Repr

/-- The record `packet.PrivateKey`: the flag `Encrypted` the source reads and
writes through `Decrypt`, and the remaining content of the packet (protected or
clear key material, protection parameters) as uninterpreted bytes. -/
structure PrivateKey where
  Encrypted : Bool
  material : List Nat
  deriving DecidableEq, Repr

/-- The record `openpgp.Subkey`. -/
structure Subkey where
  PublicKey : PublicKey
  PrivateKey : Option PrivateKey
  deriving DecidableEq, Repr

/-- The record `openpgp.Entity`.  The Go map `Identities` is an association
list from identity string to identity. -/
structure Entity where
  PrimaryKey : PublicKey
  PrivateKey : Option PrivateKey
  Identities : List (String × Identity)
  Subkeys : Option (List Subkey)
  deriving DecidableEq, Repr

/-- The slice type `openpgp.EntityList`; `none` is the nil slice. -/
abbrev EntityList := Option (List Entity)

/-- The elements a `range` loop over an entity list visits. -/
def EntityList.elems (keys : EntityList) : List Entity :=
  keys.getD []

/-! ## keymgr/keymgr.go : lookup by email -/

/-- The loop of `entityMatchesEmail` over the identities of an entity. -/
def entityMatchesEmail.loop (email : String) : List (String × Identity) → Bool
  | [] => false
  | (_, v) :: rest =>
    if v.UserId.Email = email then true else entityMatchesEmail.loop email rest

/-- Source `entityMatchesEmail`. -/
def entityMatchesEmail (email : String) (e : Entity) : Bool :=
  entityMatchesEmail.loop email e.Identities

/-- The loop of `lookupByEmail`: append each matching entity to `result`. -/
def lookupByEmail.loop (email : String) : List Entity → List Entity → List Entity
  | result, [] => result
  | result, e :: rest =>
    if entityMatchesEmail email e then lookupByEmail.loop email (result ++ [e]) rest
    else lookupByEmail.loop email result rest

/-- Source `lookupByEmail`.  The returned slice is never nil. -/
def lookupByEmail (email : String) (keys : EntityList) : List Entity :=
  match keys with
  | none => []
  | some ks => lookupByEmail.loop email [] ks

/-- Specification side of the lookup: the entity declares an identity whose
email is exactly the query. -/
def declaresEmail (email : String) (e : Entity) : Prop :=
  ∃ id ∈ e.Identities, id.2.UserId.Email = email

instance (email : String) (e : Entity) : Decidable (declaresEmail email e) := by
  unfold declaresEmail; infer_instance

/-! ## The OpenPGP collaborator -/

/-- The record `openpgp.Key` returned by `EntityList.KeysById`. -/
structure Key where
  Entity : Entity
  PublicKey : PublicKey
  PrivateKey : Option PrivateKey
  deriving DecidableEq, Repr

/-- Capabilities consumed from `go.crypto/openpgp`, `openpgp/packet` and
`openpgp/armor`.  A Go `error` result is `Option String` (`none` is nil) or the
error side of `Except`.  A serializer is given by the bytes it hands to its
writer, in order, and the error it returns on its own account (`none` is nil). -/
structure Crypto where
  /-- Method `(*packet.PrivateKey).Decrypt`: the returned error and the key as
  the call leaves it. -/
  Decrypt : PrivateKey → List Nat → Option String × PrivateKey
  /-- Method `EntityList.KeysById`. -/
  KeysById : EntityList → Nat → List Key
  /-- Function `openpgp.NewEntity` called with name, comment, email. -/
  NewEntity : String → String → String → Except String Entity
  /-- Method `Entity.Serialize`: the bytes written and the error returned. -/
  Serialize : Entity → List Nat × Option String
  /-- Method `Entity.SerializePrivate` with a nil config. -/
  SerializePrivate : Entity → List Nat × Option String
  /-- Function `armor.Encode` with an empty header map: an error, or the
  encoder taking the bytes written before `Close` to the text in the buffer. -/
  ArmorEncode : String → Except String (List Nat → String)

/-- Contract of `Decrypt` assumed where stated: a failed call leaves the
private key as it was. -/
def Crypto.FailedDecryptKeepsKey (c : Crypto) : Prop :=
  ∀ (pk : PrivateKey) (passphrase : List Nat),
    (c.Decrypt pk passphrase).1 ≠ none → (c.Decrypt pk passphrase).2 = pk

/-- Contract of `Decrypt` assumed where stated: a call that returns no error
leaves the private key unprotected. -/
def Crypto.SuccessfulDecryptUnlocks (c : Crypto) : Prop :=
  ∀ (pk : PrivateKey) (passphrase : List Nat),
    (c.Decrypt pk passphrase).1 = none → (c.Decrypt pk passphrase).2.Encrypted = false

/-! ## keymgr/gpg.go : unlocking -/

/-- The body of the loop of `decryptSubkeys`, for one subkey. -/
def decryptSubkeys.body (c : Crypto) (passphrase : List Nat) (sk : Subkey) : Subkey :=
  match sk.PrivateKey with
  | some pk =>
    if pk.Encrypted then { sk with PrivateKey := some (c.Decrypt pk passphrase).2 } else sk
  | none => sk

/-- The loop of `decryptSubkeys`. -/
def decryptSubkeys.loop (c : Crypto) (passphrase : List Nat) : List Subkey → List Subkey
  | [] => []
  | sk :: rest => decryptSubkeys.body c passphrase sk :: decryptSubkeys.loop c passphrase rest

/-- Source `decryptSubkeys`. -/
def decryptSubkeys (c : Crypto) (e : Entity) (passphrase : List Nat) : Entity :=
  match e.Subkeys with
  | none => e
  | some sks => { e with Subkeys := some (decryptSubkeys.loop c passphrase sks) }

/-- Source `keymgr.UnlockPrivateKey`: the returned pair and the entity as the
call leaves it. -/
def UnlockPrivateKey (c : Crypto) (e : Entity) (passphrase : List Nat) :
    (Bool × Option String) × Entity :=
  match e.PrivateKey with
  | none => ((false, some "no private key"), e)
  | some pk =>
    if pk.Encrypted = false then ((true, none), e)
    else
      let r := c.Decrypt pk passphrase
      let e1 : Entity := { e with PrivateKey := some r.2 }
      let e2 := if r.1 = none then decryptSubkeys c e1 passphrase else e1
      ((decide (r.1 = none), none), e2)

/-- Private material is present and passphrase-protected. -/
def lockedKey : Option PrivateKey → Bool
  | some pk => pk.Encrypted
  | none => false

/-- Private material is present and unprotected. -/
def unlockedKey : Option PrivateKey → Bool
  | some pk => !pk.Encrypted
  | none => false

/-- The subkeys of an entity as a list (a nil slice has none). -/
def Entity.subkeys (e : Entity) : List Subkey :=
  e.Subkeys.getD []

/-- Primary key and every subkey locked. -/
def Entity.allLocked (e : Entity) : Bool :=
  lockedKey e.PrivateKey && e.subkeys.all fun sk => lockedKey sk.PrivateKey

/-- Primary key and every subkey unlocked. -/
def Entity.allUnlocked (e : Entity) : Bool :=
  unlockedKey e.PrivateKey && e.subkeys.all fun sk => unlockedKey sk.PrivateKey

/-- A collaborator in which the uninterpreted material of a private key is the
passphrase protecting it: `Decrypt` succeeds exactly on that passphrase. -/
def passphraseCrypto : Crypto where
  Decrypt := fun pk passphrase =>
    if pk.Encrypted = false then (none, pk)
    else if passphrase = pk.material then (none, { pk with Encrypted := false })
    else (some "private key checksum failure", pk)
  KeysById := fun el id =>
    el.elems.flatMap fun e =>
      (if e.PrimaryKey.KeyId = id then [Key.mk e e.PrimaryKey e.PrivateKey] else []) ++
        (e.subkeys.filter fun sk => sk.PublicKey.KeyId = id).map fun sk =>
          Key.mk e sk.PublicKey sk.PrivateKey
  NewEntity := fun name comment email =>
    .ok { PrimaryKey := ⟨1, [], false, .rsa 2048⟩
          PrivateKey := some ⟨false, []⟩
          Identities := [(name ++ " <" ++ email ++ ">", ⟨name, ⟨name, comment, email⟩⟩)]
          Subkeys := some [⟨⟨2, [], true, .rsa 2048⟩, some ⟨false, []⟩⟩] }
  Serialize := fun e => ([e.PrimaryKey.KeyId % 256], none)
  SerializePrivate := fun e => ([e.PrimaryKey.KeyId % 256, 0], none)
  ArmorEncode := fun header =>
    .ok fun bytes => "-----BEGIN " ++ header ++ "-----\n" ++ toString bytes ++
      "\n-----END " ++ header ++ "-----"

/-- An identity for an email address. -/
def identityFor (email : String) : String × Identity :=
  (email, ⟨email, ⟨"", "", email⟩⟩)

/-- A key pair whose primary key is protected by passphrase `p` and whose one
subkey is protected by passphrase `q`. -/
def lockedPair (p q : List Nat) : Entity where
  PrimaryKey := ⟨10, [], false, .rsa 2048⟩
  PrivateKey := some ⟨true, p⟩
  Identities := [identityFor "user4@example.com"]
  Subkeys := some [⟨⟨11, [], true, .rsa 2048⟩, some ⟨true, q⟩⟩]

/-! ## encoding/hex and the key id codec (protocol/keyinfo.go, protocol/protocol.go) -/

/-- The digit table of `encoding/hex`. -/
def hextable : List Char := "0123456789abcdef".data

/-- One byte as two lowercase hexadecimal digits. -/
def hexByte (b : Nat) : List Char :=
  [hextable.getD (b / 16 % 16) '0', hextable.getD (b % 16) '0']

/-- Function `hex.EncodeToString`. -/
def hexEncodeToString (bs : List Nat) : String :=
  String.mk (bs.flatMap hexByte)

/-- Function `fromHexChar` of `encoding/hex`. -/
def fromHexChar (ch : Char) : Option Nat :=
  if '0' ≤ ch ∧ ch ≤ '9' then some (ch.toNat - '0'.toNat)
  else if 'a' ≤ ch ∧ ch ≤ 'f' then some (ch.toNat - 'a'.toNat + 10)
  else if 'A' ≤ ch ∧ ch ≤ 'F' then some (ch.toNat - 'A'.toNat + 10)
  else none

/-- The loop of `hex.Decode` over pairs of digits.  The text is read as a list
of characters; a character outside ASCII is no hexadecimal digit in Go either. -/
def hexDecodeLoop : List Char → Except String (List Nat)
  | [] => .ok []
  | [_] => .error "encoding/hex: odd length hex string"
  | a :: b :: rest =>
    match fromHexChar a, fromHexChar b with
    | some x, some y =>
      match hexDecodeLoop rest with
      | .ok bs => .ok ((x * 16 + y) :: bs)
      | .error err => .error err
    | _, _ => .error "encoding/hex: invalid byte"

/-- Function `hex.DecodeString`. -/
def hexDecodeString (s : String) : Except String (List Nat) :=
  if s.data.length % 2 = 1 then .error "encoding/hex: odd length hex string"
  else hexDecodeLoop s.data

/-- Function `binary.BigEndian.PutUint64` into a fresh slice of 8 bytes. -/
def putUint64 (v : Nat) : List Nat :=
  [v / 2 ^ 56 % 256, v / 2 ^ 48 % 256, v / 2 ^ 40 % 256, v / 2 ^ 32 % 256,
   v / 2 ^ 24 % 256, v / 2 ^ 16 % 256, v / 2 ^ 8 % 256, v % 256]

/-- Function `binary.BigEndian.Uint64` on a slice of at least 8 bytes. -/
def uint64Of (bs : List Nat) : Nat :=
  bs.getD 7 0 + bs.getD 6 0 * 2 ^ 8 + bs.getD 5 0 * 2 ^ 16 + bs.getD 4 0 * 2 ^ 24
    + bs.getD 3 0 * 2 ^ 32 + bs.getD 2 0 * 2 ^ 40 + bs.getD 1 0 * 2 ^ 48
    + bs.getD 0 0 * 2 ^ 56

/-- Source `encodeKeyId`. -/
def encodeKeyId (keyId : Nat) : String :=
  hexEncodeToString (putUint64 keyId)

/-- Source `decodeKeyId`. -/
def decodeKeyId (keyId : String) : Except String Nat :=
  match hexDecodeString keyId with
  | .error err => .error err
  | .ok bs =>
    if bs.length ≠ 8 then
      .error ("keyId is not 8 bytes as expected, got " ++ toString bs.length)
    else .ok (uint64Of bs)

/-! ## keymgr/render.go -/

/-- The verb `%X` of `fmt` on an unsigned integer. -/
def formatUpperHex (n : Nat) : String :=
  String.mk ((Nat.toDigits 16 n).map Char.toUpper)

/-- Source `renderKeyTag`. -/
def renderKeyTag (k : KeyMaterial) : String :=
  match k with
  | .rsa bitLen => toString bitLen ++ "R"
  | .dsa bitLen => toString bitLen ++ "D"
  | .other => "??"

/-- Source `renderPublicKey`. -/
def renderPublicKey (pk : PublicKey) : String :=
  let ktag := renderKeyTag pk.PublicKey
  if pk.IsSubkey then "sub   " ++ ktag ++ "/" ++ formatUpperHex (pk.KeyId % 2 ^ 32)
  else "pub   " ++ ktag ++ "/" ++ formatUpperHex (pk.KeyId % 2 ^ 32)

/-- Source `RenderKey`. -/
def RenderKey (e : Entity) : String :=
  let lines := [renderPublicKey e.PrimaryKey]
  let lines := e.Identities.foldl
    (fun acc (kv : String × Identity) => acc ++ ["uid     " ++ kv.2.Name]) lines
  "\n".intercalate lines

/-! ## keymgr/keymgr.go : the key store -/

/-- Source `keyStore`. -/
structure keyStore where
  publicKeys : EntityList
  secretKeys : EntityList
  deriving DecidableEq, Repr

/-- Source `lookupPublicKey`. -/
def keyStore.lookupPublicKey (store : keyStore) (email : String) : List Entity :=
  lookupByEmail email store.publicKeys

/-- Source `lookupSecretKey`. -/
def keyStore.lookupSecretKey (store : keyStore) (email : String) : List Entity :=
  lookupByEmail email store.secretKeys

/-- Source `GetPublicKey`; the error result is always nil and is dropped. -/
def keyStore.GetPublicKey (store : keyStore) (address : String) : Option Entity :=
  match store.lookupPublicKey address with
  | e :: _ => some e
  | [] => none

/-- Source `GetSecretKey`; the error result is always nil and is dropped. -/
def keyStore.GetSecretKey (store : keyStore) (address : String) : Option Entity :=
  match store.lookupSecretKey address with
  | e :: _ => some e
  | [] => none

/-- Source `GetSecretKeyById`. -/
def keyStore.GetSecretKeyById (c : Crypto) (store : keyStore) (keyid : Nat) : Option Entity :=
  match c.KeysById store.secretKeys keyid with
  | k :: _ => some k.Entity
  | [] => none

/-- Source `GetPublicKeyById`. -/
def keyStore.GetPublicKeyById (c : Crypto) (store : keyStore) (keyid : Nat) : Option Entity :=
  match c.KeysById store.publicKeys keyid with
  | k :: _ => some k.Entity
  | [] => none

/-! ## keymgr/keymgr.go : armoring, generation and persistence -/

/-- Source constant `publicKeyArmorHeader`. -/
def publicKeyArmorHeader : String := "PGP PUBLIC KEY BLOCK"

/-- Source constant `secretKeyArmorHeader`. -/
def secretKeyArmorHeader : String := "PGP PRIVATE KEY BLOCK"

/-- Source constant `publicKeyringFilename`. -/
def publicKeyringFilename : String := "nymskeys.pub"

/-- Source constant `secretKeyringFilename`. -/
def secretKeyringFilename : String := "nymskeys.sec"

/-- Source `exportArmoredKey`; `writeKey` is the outcome of the writer callback
on the armor encoder: the bytes written and the error returned. -/
def exportArmoredKey (c : Crypto) (header : String) (writeKey : List Nat × Option String) :
    String × Option String :=
  match c.ArmorEncode header with
  | .error err => ("", some err)
  | .ok w =>
    match writeKey.2 with
    | some err => ("", some err)
    | none => (w writeKey.1, none)

/-- Source `ArmorPublicKey`. -/
def ArmorPublicKey (c : Crypto) (e : Entity) : String × Option String :=
  exportArmoredKey c publicKeyArmorHeader (c.Serialize e)

/-- Source `ArmorSecretKey`. -/
def ArmorSecretKey (c : Crypto) (e : Entity) : String × Option String :=
  exportArmoredKey c secretKeyArmorHeader (c.SerializePrivate e)

/-- The host files the key manager appends to. -/
structure FileSystem where
  /-- Function `filepath.Join` on two elements. -/
  Join : String → String → String
  /-- The error of `os.OpenFile` on a path with the flags
  `O_WRONLY|O_APPEND|O_CREATE`; `none` when the file opens. -/
  openError : String → Option String
  /-- Writing to the open file at a path: of the bytes handed over, the bytes
  that reach the file, and the error of the write (`none` when all are written). -/
  write : String → List Nat → List Nat × Option String
  /-- The content of the file at a path; `none` when there is no such file. -/
  content : String → Option (List Nat)

/-- The process state of the agent: the key store behind `KeySource()`, the
global `nymsDirectory`, and the host files. -/
structure Agent where
  keys : keyStore
  nymsDirectory : String
  fs : FileSystem

/-- Source `serializeKey`: the returned error and the files afterwards.
`writeKey` is the serializer the callback runs on the open file.  Opening
creates a missing file; whatever reaches the file before a failure of the
serializer or of the write stays appended.  The mutex is local to the call. -/
def serializeKey (fs : FileSystem) (nymsDirectory fname : String)
    (writeKey : List Nat × Option String) : Option String × FileSystem :=
  let path := fs.Join nymsDirectory fname
  match fs.openError path with
  | some err => (some err, fs)
  | none =>
    let w := fs.write path writeKey.1
    let fs1 : FileSystem :=
      { fs with
        content := fun p =>
          if p = path then some ((fs.content p).getD [] ++ w.1) else fs.content p }
    match w.2 with
    | some err => (some err, fs1)
    | none => (writeKey.2, fs1)

/-- Source `addSecretKey`. -/
def addSecretKey (c : Crypto) (a : Agent) (e : Entity) : Option String × Agent :=
  let r := serializeKey a.fs a.nymsDirectory secretKeyringFilename (c.SerializePrivate e)
  (r.1, { a with fs := r.2 })

/-- Source `AddPublicKey`. -/
def AddPublicKey (c : Crypto) (a : Agent) (e : Entity) : Option String × Agent :=
  let r := serializeKey a.fs a.nymsDirectory publicKeyringFilename (c.Serialize e)
  (r.1, { a with fs := r.2 })

/-- Source `generateNewKey` (the config only parametrises the library call):
the result of `addSecretKey` is discarded. -/
def generateNewKey (c : Crypto) (a : Agent) (name comment email : String) :
    Except String Entity × Agent :=
  match c.NewEntity name comment email with
  | .error err => (.error err, a)
  | .ok e => (.ok e, (addSecretKey c a e).2)

/-- Source `GenerateNewKey`. -/
def GenerateNewKey (c : Crypto) (a : Agent) (name comment email : String) :
    Except String Entity × Agent :=
  generateNewKey c a name comment email

/-! ## protocol/keyinfo.go and the key operations of protocol/protocol.go -/

/-- Source `GetKeyInfoArgs`. -/
structure GetKeyInfoArgs where
  Address : String
  KeyId : String
  Lookup : Bool
  deriving DecidableEq, Repr

/-- Source `GetKeyInfoResult`. -/
structure GetKeyInfoResult where
  HasKey : Bool
  HasSecretKey : Bool
  IsEncrypted : Bool
  Fingerprint : String
  KeyId : String
  Summary : String
  UserIDs : List String
  UserImage : String
  KeyData : String
  SecretKeyData : String
  deriving DecidableEq, Repr

/-- The zero value of `GetKeyInfoResult`, as the RPC server allocates it. -/
def GetKeyInfoResult.zero : GetKeyInfoResult :=
  ⟨false, false, false, "", "", "", [], "", "", ""⟩

/-- Source `populateKeyInfo`. -/
def populateKeyInfo (c : Crypto) (k : Entity) (info : GetKeyInfoResult) : GetKeyInfoResult :=
  let info := { info with HasKey := true }
  let info :=
    match k.PrivateKey with
    | some pk =>
      let info := { info with HasSecretKey := true }
      let info := { info with IsEncrypted := pk.Encrypted }
      if pk.Encrypted = false then { info with SecretKeyData := (ArmorSecretKey c k).1 }
      else info
    | none => info
  let info := { info with Fingerprint := hexEncodeToString k.PrimaryKey.Fingerprint }
  let info := { info with KeyId := encodeKeyId k.PrimaryKey.KeyId }
  let info := { info with Summary := RenderKey k }
  let info := { info with
    UserIDs := k.Identities.foldl (fun acc (kv : String × Identity) => acc ++ [kv.1]) info.UserIDs }
  { info with KeyData := (ArmorPublicKey c k).1 }

/-- Source `getEntityByEmail`. -/
def getEntityByEmail (store : keyStore) (email : String) : Option Entity :=
  match store.GetSecretKey email with
  | some k => some k
  | none => store.GetPublicKey email

/-- Source `getEntityByKeyId`. -/
def getEntityByKeyId (c : Crypto) (store : keyStore) (keyId : String) : Option Entity :=
  match decodeKeyId keyId with
  | .error _ => none
  | .ok id =>
    match store.GetSecretKeyById c id with
    | some k => some k
    | none => store.GetPublicKeyById c id

/-- Source `handleGetKeyInfo`. -/
def handleGetKeyInfo (c : Crypto) (store : keyStore) (address keyid : String) : Option Entity :=
  if address ≠ "" then getEntityByEmail store address
  else if keyid ≠ "" then getEntityByKeyId c store keyid
  else none

/-- Source `Protocol.GetKeyInfo`: the returned error and the result record. -/
def GetKeyInfo (c : Crypto) (store : keyStore) (args : GetKeyInfoArgs)
    (result : GetKeyInfoResult) : Option String × GetKeyInfoResult :=
  match handleGetKeyInfo c store args.Address args.KeyId with
  | some k => (none, populateKeyInfo c k result)
  | none => (none, result)

/-- Source `GenerateKeysArgs`. -/
structure GenerateKeysArgs where
  RealName : String
  Email : String
  Comment : String
  deriving DecidableEq, Repr

/-- Source `Protocol.GenerateKeys`: the returned error, the result record and
the agent afterwards. -/
def GenerateKeys (c : Crypto) (a : Agent) (args : GenerateKeysArgs)
    (result : GetKeyInfoResult) : (Option String × GetKeyInfoResult) × Agent :=
  match GenerateNewKey c a args.RealName args.Comment args.Email with
  | (.error err, a1) => ((some err, result), a1)
  | (.ok e, a1) => ((none, populateKeyInfo c e result), a1)

/-- Source constant `protocolVersion`. -/
def protocolVersion : Int := 1

/-- Source `Protocol.Version`. -/
def Version (result : Int) : Option String × Int :=
  (none, protocolVersion)

/-! ## The mail collaborator (`pgpmail`, `mime`, `strings`) -/

/-- The record `pgpmail.Message`: the body the source reads, and the headers,
read only through `GetHeaderValue`. -/
structure Message where
  Header : List (String × String)
  Body : String
  deriving DecidableEq, Repr

/-- The record `pgpmail.VerifyStatus`. -/
structure VerifyStatus where
  Code : Int
  SignerKeyId : Nat
  FailureMessage : String
  deriving DecidableEq, Repr

/-- The record `pgpmail.DecryptionStatus`; `KeyIds` may be a nil slice. -/
structure DecryptionStatus where
  Code : Int
  VerifyStatus : VerifyStatus
  FailureMessage : String
  KeyIds : Option (List Nat)
  deriving DecidableEq, Repr

/-- The record `pgpmail.EncryptStatus`; `Message` may be nil. -/
structure EncryptStatus where
  Code : Int
  FailureMessage : String
  MissingKeys : List String
  Message : Option Message
  deriving DecidableEq, Repr

/-- The outcome of a call into a library: it returns a value, or it faults
(a Go panic) with the value `v` the panic carries, rendered as text. -/
inductive Ext (α : Type) where
  | done (a : α)
  | fault (v : String)
  deriving DecidableEq, Repr

/-- Capabilities consumed from `pgpmail`, `mime` and `strings`, and the status
constants of `pgpmail` the source names.  The operations working on key
material receive the key store, which they may change (unlock keys), and may
change the message they are called on. -/
structure Mail where
  VerifyNotSigned : Int
  VerifyFailed : Int
  DecryptNotEncrypted : Int
  DecryptSuccess : Int
  DecryptFailed : Int
  DecryptPassphraseNeeded : Int
  StatusFailed : Int
  StatusFailedNeedPubkeys : Int
  /-- Function `pgpmail.ParseMessage`. -/
  ParseMessage : String → Ext (Except String Message)
  /-- Method `Message.GetHeaderValue`. -/
  GetHeaderValue : Message → String → String
  /-- Function `mime.ParseMediaType`: the media type, or the error. -/
  ParseMediaType : String → Except String String
  /-- Function `strings.ToLower`. -/
  ToLower : String → String
  /-- Method `Message.String`. -/
  MessageString : Message → String
  /-- Method `Message.DecryptWith` with the passphrase (nil is `none`). -/
  DecryptWith : Message → keyStore → Option (List Nat) →
    Ext (DecryptionStatus × Message × keyStore)
  /-- Method `Message.Verify`. -/
  Verify : Message → keyStore → Ext (VerifyStatus × Message × keyStore)
  /-- Method `Message.Sign`. -/
  Sign : Message → keyStore → String → Ext (EncryptStatus × Message × keyStore)
  /-- Method `Message.EncryptAndSign`. -/
  EncryptAndSign : Message → keyStore → String → Ext (EncryptStatus × Message × keyStore)
  /-- Method `Message.Encrypt`. -/
  Encrypt : Message → keyStore → Ext (EncryptStatus × Message × keyStore)

/-- The operations of the mail collaborator that work on key material. -/
inductive Call where
  | decryptWith
  | verify
  | sign
  | encryptAndSign
  | encrypt
  deriving DecidableEq, Repr

/-- What a pipeline function has done when it stops: the result record it
writes through its pointer, the key store, and the collaborator operations
invoked so far, in order. -/
structure Served (ρ : Type) where
  result : ρ
  keys : keyStore
  calls : List Call
  deriving DecidableEq, Repr

/-- How a Go function with an `error` result stops: it returns (with the
error, nil being `none`), or a panic propagates out of it. -/
inductive Outcome (σ : Type) where
  | returned (err : Option String) (s : σ)
  | panicked (v : String) (s : σ)
  deriving DecidableEq, Repr

/-! ## protocol/process.go -/

/-- The loop of `strings.Contains` over the start positions of the text. -/
def stringsContains.loop (substr : List Char) : List Char → Bool
  | [] => substr.isEmpty
  | ch :: rest => substr.isPrefixOf (ch :: rest) || stringsContains.loop substr rest

/-- Function `strings.Contains`. -/
def stringsContains (s substr : String) : Bool :=
  stringsContains.loop substr.data s.data

/-- Source `getContentType`. -/
def getContentType (M : Mail) (m : Message) : String :=
  let ct := M.GetHeaderValue m "Content-Type"
  if ct = "" then ""
  else
    match M.ParseMediaType ct with
    | .error _ => ""
    | .ok mt => M.ToLower mt

/-- Source `isInlineEncrypted`. -/
def isInlineEncrypted (m : Message) : Bool :=
  stringsContains m.Body "-----BEGIN PGP MESSAGE-----"

/-- Source `isInlineSigned`. -/
def isInlineSigned (m : Message) : Bool :=
  stringsContains m.Body "-----BEGIN PGP SIGNED MESSAGE-----"

/-- Source `needsIncomingProcessing`. -/
def needsIncomingProcessing (M : Mail) (m : Message) : Bool :=
  let ct := getContentType M m
  ct = "multipart/encrypted" || ct = "multipart/signed" || isInlineEncrypted m
    || isInlineSigned m

/-- Source `needsOutgoingProcessing`. -/
def needsOutgoingProcessing (m : Message) : Bool :=
  true

/-- Source `ProcessIncomingResult`. -/
structure ProcessIncomingResult where
  VerifyResult : Int
  DecryptResult : Int
  EmailBody : String
  FailureMessage : String
  EncryptedKeyIds : List String
  SignerKeyId : String
  deriving DecidableEq, Repr

/-- The zero value of `ProcessIncomingResult`. -/
def ProcessIncomingResult.zero : ProcessIncomingResult :=
  ⟨0, 0, "", "", [], ""⟩

/-- Source `ProcessOutgoingResult`. -/
structure ProcessOutgoingResult where
  ResultCode : Int
  EmailBody : String
  FailureMessage : String
  MissingKeyAddresses : List String
  deriving DecidableEq, Repr

/-- The zero value of `ProcessOutgoingResult`. -/
def ProcessOutgoingResult.zero : ProcessOutgoingResult :=
  ⟨0, "", "", []⟩

/-- The part of `processEncrypted` after the call of `DecryptWith`: what the
decrypt step records in the result. -/
def processEncrypted.record (M : Mail) (status : DecryptionStatus) (m : Message)
    (result : ProcessIncomingResult) : ProcessIncomingResult :=
  let result := { result with DecryptResult := status.Code }
  let result := { result with VerifyResult := status.VerifyStatus.Code }
  let result :=
    if status.Code = M.DecryptFailed then
      { result with FailureMessage := status.FailureMessage }
    else if status.VerifyStatus.Code = M.VerifyFailed then
      { result with FailureMessage := status.VerifyStatus.FailureMessage }
    else result
  let result :=
    if status.Code = M.DecryptPassphraseNeeded ∧ status.KeyIds ≠ none then
      { result with
        EncryptedKeyIds := (status.KeyIds.getD []).foldl (fun acc id => acc ++ [encodeKeyId id])
          result.EncryptedKeyIds }
    else result
  if status.Code = M.DecryptSuccess then { result with EmailBody := M.MessageString m } else result

/-- Source `processEncrypted`, on the message `m`: how it stops, with the
message as the call leaves it. -/
def processEncrypted (M : Mail) (m : Message) (s : Served ProcessIncomingResult)
    (passphrase : Option (List Nat)) : Outcome (Message × Served ProcessIncomingResult) :=
  match M.DecryptWith m s.keys passphrase with
  | .fault v => .panicked v (m, { s with calls := s.calls ++ [Call.decryptWith] })
  | .done (status, m1, keys1) =>
    .returned none
      (m1, { result := processEncrypted.record M status m1 s.result
             keys := keys1
             calls := s.calls ++ [Call.decryptWith] })

/-- The part of `processSigned` after the call of `Verify`. -/
def processSigned.record (M : Mail) (status : VerifyStatus)
    (result : ProcessIncomingResult) : ProcessIncomingResult :=
  let result := { result with VerifyResult := status.Code }
  let result :=
    if status.Code = M.VerifyFailed then { result with FailureMessage := status.FailureMessage }
    else result
  if status.SignerKeyId ≠ 0 then { result with SignerKeyId := encodeKeyId status.SignerKeyId }
  else result

/-- Source `processSigned`. -/
def processSigned (M : Mail) (m : Message) (s : Served ProcessIncomingResult) :
    Outcome (Message × Served ProcessIncomingResult) :=
  match M.Verify m s.keys with
  | .fault v => .panicked v (m, { s with calls := s.calls ++ [Call.verify] })
  | .done (status, m1, keys1) =>
    .returned none
      (m1, { result := processSigned.record M status s.result
             keys := keys1
             calls := s.calls ++ [Call.verify] })

/-- The signature step of `processIncomingMail` (its second half). -/
def processIncomingMail.verifyStep (M : Mail) (m : Message)
    (s : Served ProcessIncomingResult) : Outcome (Served ProcessIncomingResult) :=
  let ct := getContentType M m
  if ct = "multipart/signed" ∨ isInlineSigned m = true then
    match processSigned M m s with
    | .panicked v (_, s1) => .panicked v s1
    | .returned (some err) (_, s1) => .returned (some err) s1
    | .returned none (_, s1) => .returned none s1
  else .returned none s

/-- Source `processIncomingMail`; `s` holds the result record behind the
pointer and the key store when the call starts. -/
def processIncomingMail (M : Mail) (body : String) (s : Served ProcessIncomingResult)
    (passphrase : Option (List Nat)) : Outcome (Served ProcessIncomingResult) :=
  let s := { s with result := { s.result with VerifyResult := M.VerifyNotSigned } }
  let s := { s with result := { s.result with DecryptResult := M.DecryptNotEncrypted } }
  match M.ParseMessage body with
  | .fault v => .panicked v s
  | .done (.error err) => .returned (some err) s
  | .done (.ok m) =>
    if needsIncomingProcessing M m = false then .returned none s
    else
      let ct := getContentType M m
      if ct = "multipart/encrypted" ∨ isInlineEncrypted m = true then
        match processEncrypted M m s passphrase with
        | .panicked v (_, s1) => .panicked v s1
        | .returned (some err) (_, s1) => .returned (some err) s1
        | .returned none (m1, s1) => processIncomingMail.verifyStep M m1 s1
      else processIncomingMail.verifyStep M m s

/-- Source `processOutgoingStatus`. -/
def processOutgoingStatus (M : Mail) (status : EncryptStatus)
    (result : ProcessOutgoingResult) : ProcessOutgoingResult :=
  let result := { result with ResultCode := status.Code }
  let result :=
    if status.Code = M.StatusFailed then { result with FailureMessage := status.FailureMessage }
    else result
  let result :=
    if status.Code = M.StatusFailedNeedPubkeys then
      { result with MissingKeyAddresses := status.MissingKeys }
    else result
  match status.Message with
  | some sm => { result with EmailBody := M.MessageString sm }
  | none => result

/-- A call of a signing or encrypting operation followed by
`processOutgoingStatus`, as in each branch of `processOutgoingMail`. -/
def processOutgoingMail.apply (M : Mail) (op : Call)
    (r : Ext (EncryptStatus × Message × keyStore)) (s : Served ProcessOutgoingResult) :
    Outcome (Served ProcessOutgoingResult) :=
  match r with
  | .fault v => .panicked v { s with calls := s.calls ++ [op] }
  | .done (status, _, keys1) =>
    .returned none
      { result := processOutgoingStatus M status s.result
        keys := keys1
        calls := s.calls ++ [op] }

/-- Source `processOutgoingMail`. -/
def processOutgoingMail (M : Mail) (body : String) (sign encrypt : Bool) (passphrase : String)
    (s : Served ProcessOutgoingResult) : Outcome (Served ProcessOutgoingResult) :=
  match M.ParseMessage body with
  | .fault v => .panicked v s
  | .done (.error err) => .returned (some err) s
  | .done (.ok m) =>
    if needsOutgoingProcessing m = false then .returned none s
    else if encrypt = false then
      if sign then processOutgoingMail.apply M Call.sign (M.Sign m s.keys passphrase) s
      else .returned none s
    else if sign then
      processOutgoingMail.apply M Call.encryptAndSign (M.EncryptAndSign m s.keys passphrase) s
    else processOutgoingMail.apply M Call.encrypt (M.Encrypt m s.keys) s

/-! ## protocol/protocol.go : the mail operations of the facade -/

/-- Source `ProcessIncomingArgs`. -/
structure ProcessIncomingArgs where
  EmailBody : String
  Passphrase : String
  deriving DecidableEq, Repr

/-- Source `ProcessOutgoingArgs`. -/
structure ProcessOutgoingArgs where
  Sign : Bool
  Encrypt : Bool
  EmailBody : String
  Passphrase : String
  deriving DecidableEq, Repr

/-- The conversion `[]byte(s)` of a Go string. -/
def bytesOf (s : String) : List Nat :=
  s.toUTF8.toList.map UInt8.toNat

/-- Source `catchPanic`, run as a deferred call: `err` is the error result of
the surrounding function at that moment, `r` the value `recover()` yields
(`none` when no panic is under way).  Returns the error result afterwards. -/
def catchPanic (err : Option String) (fname : String) (r : Option String) : Option String :=
  match r with
  | some v =>
    let msg := "PANIC! caught from function " ++ fname ++ " : " ++ v
    if err = none then some msg else err
  | none => err

/-- Source `Protocol.ProcessIncoming`: the body runs under the deferred
`catchPanic`; when a panic reaches it the error result is still nil. -/
def ProcessIncoming (M : Mail) (args : ProcessIncomingArgs)
    (s : Served ProcessIncomingResult) : Outcome (Served ProcessIncomingResult) :=
  let body :=
    if args.Passphrase = "" then processIncomingMail M args.EmailBody s none
    else processIncomingMail M args.EmailBody s (some (bytesOf args.Passphrase))
  match body with
  | .returned e s1 => .returned (catchPanic e "ProcessIncoming" none) s1
  | .panicked v s1 => .returned (catchPanic none "ProcessIncoming" (some v)) s1

/-- Source `Protocol.ProcessOutgoing`: no deferred call, a panic propagates. -/
def ProcessOutgoing (M : Mail) (args : ProcessOutgoingArgs)
    (s : Served ProcessOutgoingResult) : Outcome (Served ProcessOutgoingResult) :=
  match processOutgoingMail M args.EmailBody args.Sign args.Encrypt args.Passphrase s with
  | .panicked v s1 => .panicked v s1
  | .returned (some err) s1 => .returned (some err) s1
  | .returned none s1 => .returned none s1

/-- A mail collaborator for the examples: the whole text is the body of a
message without headers, and no key is available: decryption and signing
fail, a signature cannot be checked, the recipient has no public key. -/
def noKeysMail : Mail where
  VerifyNotSigned := 0
  VerifyFailed := 2
  DecryptNotEncrypted := 0
  DecryptSuccess := 1
  DecryptFailed := 2
  DecryptPassphraseNeeded := 3
  StatusFailed := 4
  StatusFailedNeedPubkeys := 6
  ParseMessage := fun body => .done (.ok ⟨[], body⟩)
  GetHeaderValue := fun m name => (m.Header.lookup name).getD ""
  ParseMediaType := fun v => .ok v
  ToLower := fun v => v
  MessageString := fun m => m.Body
  DecryptWith := fun m keys _ =>
    .done (⟨2, ⟨0, 0, ""⟩, "no secret key available", none⟩, m, keys)
  Verify := fun m keys => .done (⟨2, 0, "no public key available"⟩, m, keys)
  Sign := fun m keys _ => .done (⟨4, "no secret key available", [], none⟩, m, keys)
  EncryptAndSign := fun m keys _ => .done (⟨4, "no secret key available", [], none⟩, m, keys)
  Encrypt := fun m keys => .done (⟨6, "", ["bob@example.com"], none⟩, m, keys)

/-- A served state with a zero result record, an empty key store and no
collaborator call yet. -/
def Served.fresh {ρ : Type} (zero : ρ) : Served ρ :=
  ⟨zero, ⟨none, none⟩, []⟩

/-- A body carrying both inline markers: an armored message and, after it, the
start of a clear-signed message. -/
def mixedBody : String :=
  "-----BEGIN PGP MESSAGE-----\nhQEMA\n-----END PGP MESSAGE-----\n-----BEGIN PGP SIGNED MESSAGE-----\n"

/-- Modelled from the spec: the outgoing status taxonomy is the closed set
success, failed, failed-missing-pubkeys; the source names only the two failure
constants of `pgpmail`, so a status code reports success when it is neither. -/
def Mail.reportsSuccess (M : Mail) (code : Int) : Prop :=
  code ≠ M.StatusFailed ∧ code ≠ M.StatusFailedNeedPubkeys

instance (M : Mail) (code : Int) : Decidable (M.reportsSuccess code) := by
  unfold Mail.reportsSuccess; infer_instance

/-- A body carrying only an inline armored message. -/
def armoredBody : String :=
  "-----BEGIN PGP MESSAGE-----\nhQEMA\n-----END PGP MESSAGE-----\n"

/-- An agent with an empty key directory and no keyring file yet; every file
opens and every write goes through. -/
def emptyAgent : Agent where
  keys := ⟨some [], some []⟩
  nymsDirectory := "/home/alice/.nyms"
  fs := ⟨fun dir name => dir ++ "/" ++ name, fun _ => none, fun _ bytes => (bytes, none),
    fun _ => none⟩

/-- The same agent on a host where no file can be opened for writing. -/
def readOnlyAgent : Agent :=
  { emptyAgent with
    fs := { emptyAgent.fs with
            openError := fun path => some ("open " ++ path ++ ": permission denied") } }

/-- The request for a key for Alice. -/
def aliceKeys : GenerateKeysArgs :=
  ⟨"Alice", "alice@example.com", ""⟩

/-- Specification side of `GetKeyInfo`: some entity of the secret or of the
public collection matches the request: by email when an address is given,
otherwise by the key id the `KeyId` text decodes to. -/
def matchesRequest (c : Crypto) (store : keyStore) (args : GetKeyInfoArgs) : Prop :=
  if args.Address ≠ "" then
    ∃ e ∈ store.secretKeys.elems ++ store.publicKeys.elems, declaresEmail args.Address e
  else
    ∃ id, decodeKeyId args.KeyId = .ok id
      ∧ (c.KeysById store.secretKeys id ≠ [] ∨ c.KeysById store.publicKeys id ≠ [])

/-- The text of the Go runtime panic for a nil pointer dereference. -/
def nilDereference : String :=
  "runtime error: invalid memory address or nil pointer dereference"

/-- A mail collaborator whose operations on key material fault. -/
def faultyMail : Mail :=
  { noKeysMail with
    DecryptWith := fun _ _ _ => .fault nilDereference
    Verify := fun _ _ => .fault nilDereference
    Sign := fun _ _ _ => .fault nilDereference
    EncryptAndSign := fun _ _ _ => .fault nilDereference
    Encrypt := fun _ _ => .fault nilDereference }

/-- A key directory with one key pair in the secret collection and the same
entity, without private material, in the public collection. -/
def oneKeyStore : keyStore where
  publicKeys := some [{ lockedPair [1] [1] with PrivateKey := none }]
  secretKeys := some [lockedPair [1] [1]]

/-! ## protocol/protocol.go : unlocking by key id, and the key id codec -/

/-- Source `UnlockPrivateKeyArgs`. -/
structure UnlockPrivateKeyArgs where
  KeyId : String
  Passphrase : String
  deriving DecidableEq, Repr

/-- The part of `Protocol.UnlockPrivateKey` after the key id is decoded: the
returned error, the result behind the pointer, and the secret entity found, as
the call leaves it (the entity is shared with the key store). -/
def Protocol.UnlockPrivateKey.byId (c : Crypto) (store : keyStore) (id : Nat)
    (passphrase : String) (result : Bool) : (Option String × Bool) × Option Entity :=
  match store.GetSecretKeyById c id with
  | none => ((some "No key found for given KeyId", result), none)
  | some k =>
    let r := Nyms.UnlockPrivateKey c k (bytesOf passphrase)
    match r.1.2 with
    | some err => ((some err, result), some r.2)
    | none => ((none, r.1.1), some r.2)

/-- Source `Protocol.UnlockPrivateKey`. -/
def Protocol.UnlockPrivateKey (c : Crypto) (store : keyStore) (args : UnlockPrivateKeyArgs)
    (result : Bool) : (Option String × Bool) × Option Entity :=
  match decodeKeyId args.KeyId with
  | .error err => ((some err, result), none)
  | .ok id => Protocol.UnlockPrivateKey.byId c store id args.Passphrase result

/-- Specification side of the codec: a hexadecimal digit, in either case. -/
def isHexDigit (ch : Char) : Prop :=
  ch ∈ "0123456789abcdefABCDEF".data

instance (ch : Char) : Decidable (isHexDigit ch) := by
  unfold isHexDigit; infer_instance

/-- Specification side of the codec: a lowercase hexadecimal digit. -/
def isLowerHexDigit (ch : Char) : Prop :=
  ch ∈ "0123456789abcdef".data

instance (ch : Char) : Decidable (isLowerHexDigit ch) := by
  unfold isLowerHexDigit; infer_instance

/-- Specification side of the codec: the value of a list of bytes read as a
big-endian number. -/
def bigEndianValue (bs : List Nat) : Nat :=
  bs.foldl (fun acc b => acc * 256 + b) 0

/-! # Theorems -/

/-! ## Lookup by email -/

theorem entityMatchesEmail_loop_iff (email : String) (ids : List (String × Identity)) :
    entityMatchesEmail.loop email ids = true ↔ ∃ id ∈ ids, id.2.UserId.Email = email := by
  induction ids with
  | nil => simp [entityMatchesEmail.loop]
  | cons id rest ih =>
    obtain ⟨k, v⟩ := id
    by_cases h : v.UserId.Email = email
    · simp [entityMatchesEmail.loop, h]
    · simp [entityMatchesEmail.loop, h, ih]

theorem entityMatchesEmail_iff (email : String) (e : Entity) :
    entityMatchesEmail email e = true ↔ declaresEmail email e :=
  entityMatchesEmail_loop_iff email e.Identities

theorem lookupByEmail_loop_eq (email : String) (ks result : List Entity) :
    lookupByEmail.loop email result ks
      = result ++ ks.filter (fun e => decide (declaresEmail email e)) := by
  induction ks generalizing result with
  | nil => simp [lookupByEmail.loop]
  | cons e rest ih =>
    by_cases h : declaresEmail email e
    · have hm : entityMatchesEmail email e = true := (entityMatchesEmail_iff email e).2 h
      simp [lookupByEmail.loop, hm, h, ih]
    · have hm : entityMatchesEmail email e = false := by
        cases hb : entityMatchesEmail email e with
        | false => rfl
        | true => exact absurd ((entityMatchesEmail_iff email e).1 hb) h
      simp [lookupByEmail.loop, hm, h, ih]

/-- C1: for every email and every entity list (nil included), `lookupByEmail`
is the list filtered, in load order, to the entities declaring an identity
whose email equals the query exactly; so every entity of the list declaring the
email is in the result, and the result is empty when no identity matches. -/
theorem lookupByEmail_spec (email : String) (keys : EntityList) :
    lookupByEmail email keys
        = keys.elems.filter (fun e => decide (declaresEmail email e))
      ∧ (∀ e ∈ keys.elems, declaresEmail email e → e ∈ lookupByEmail email keys)
      ∧ ((∀ e ∈ keys.elems, ¬ declaresEmail email e) → lookupByEmail email keys = []) := by
  have heq : lookupByEmail email keys
      = keys.elems.filter (fun e => decide (declaresEmail email e)) := by
    cases keys with
    | none => simp [lookupByEmail, EntityList.elems]
    | some ks => simp [lookupByEmail, EntityList.elems, lookupByEmail_loop_eq]
  refine ⟨heq, ?_, ?_⟩
  · intro e he hd
    rw [heq]
    exact List.mem_filter.2 ⟨he, by simpa using hd⟩
  · intro hnone
    rw [heq]
    exact List.filter_eq_nil_iff.2 (fun e he => by simpa using hnone e he)

/-! ## Unlocking -/

theorem decryptSubkeys_loop_length (c : Crypto) (passphrase : List Nat) (sks : List Subkey) :
    (decryptSubkeys.loop c passphrase sks).length = sks.length := by
  induction sks with
  | nil => rfl
  | cons sk rest ih => simp [decryptSubkeys.loop, ih]

theorem decryptSubkeys_loop_eq_map (c : Crypto) (passphrase : List Nat) (sks : List Subkey) :
    decryptSubkeys.loop c passphrase sks = sks.map (decryptSubkeys.body c passphrase) := by
  induction sks with
  | nil => rfl
  | cons sk rest ih => simp [decryptSubkeys.loop, ih]

theorem decryptSubkeys_subkeys (c : Crypto) (passphrase : List Nat) (e : Entity) :
    (decryptSubkeys c e passphrase).subkeys
      = e.subkeys.map (decryptSubkeys.body c passphrase) := by
  unfold decryptSubkeys Entity.subkeys
  cases h : e.Subkeys with
  | none => simp [h]
  | some sks => simp [decryptSubkeys_loop_eq_map]

theorem decryptSubkeys_getElem? (c : Crypto) (passphrase : List Nat) (e : Entity)
    (i : Nat) (sk : Subkey) (hi : e.subkeys[i]? = some sk) :
    (decryptSubkeys c e passphrase).subkeys[i]? = some (decryptSubkeys.body c passphrase sk) := by
  rw [decryptSubkeys_subkeys, List.getElem?_map, hi]
  rfl

theorem decryptSubkeys_PrivateKey (c : Crypto) (passphrase : List Nat) (e : Entity) :
    (decryptSubkeys c e passphrase).PrivateKey = e.PrivateKey := by
  unfold decryptSubkeys
  cases h : e.Subkeys <;> simp

theorem UnlockPrivateKey_failed (c : Crypto) (hc : c.FailedDecryptKeepsKey)
    (e : Entity) (pk : PrivateKey) (passphrase : List Nat)
    (hpk : e.PrivateKey = some pk) (henc : pk.Encrypted = true)
    (hfail : (c.Decrypt pk passphrase).1 ≠ none) :
    UnlockPrivateKey c e passphrase = ((false, none), e) := by
  have hkeep := hc pk passphrase hfail
  unfold UnlockPrivateKey
  simp only [hpk, henc, hfail, hkeep]
  simp [← hpk]

theorem UnlockPrivateKey_succeeded (c : Crypto)
    (e : Entity) (pk : PrivateKey) (passphrase : List Nat)
    (hpk : e.PrivateKey = some pk) (henc : pk.Encrypted = true)
    (hok : (c.Decrypt pk passphrase).1 = none) :
    UnlockPrivateKey c e passphrase
      = ((true, none),
          decryptSubkeys c { e with PrivateKey := some (c.Decrypt pk passphrase).2 } passphrase) := by
  unfold UnlockPrivateKey
  simp [hpk, henc, hok]

theorem body_PublicKey (c : Crypto) (passphrase : List Nat) (sk : Subkey) :
    (decryptSubkeys.body c passphrase sk).PublicKey = sk.PublicKey := by
  unfold decryptSubkeys.body
  cases h : sk.PrivateKey with
  | none => rfl
  | some pk => by_cases he : pk.Encrypted = true <;> simp [he]

theorem body_unlocked_of_success (c : Crypto) (hc : c.SuccessfulDecryptUnlocks)
    (passphrase : List Nat) (sk : Subkey) (spk : PrivateKey)
    (hsk : sk.PrivateKey = some spk) (hok : (c.Decrypt spk passphrase).1 = none) :
    unlockedKey (decryptSubkeys.body c passphrase sk).PrivateKey = true := by
  unfold decryptSubkeys.body
  by_cases he : spk.Encrypted = true
  · simp [hsk, he, unlockedKey, hc spk passphrase hok]
  · simp [hsk, he, unlockedKey]

theorem body_locked_of_failure (c : Crypto) (hc : c.FailedDecryptKeepsKey)
    (passphrase : List Nat) (sk : Subkey) (spk : PrivateKey)
    (hsk : sk.PrivateKey = some spk) (henc : spk.Encrypted = true)
    (hfail : (c.Decrypt spk passphrase).1 ≠ none) :
    decryptSubkeys.body c passphrase sk = sk := by
  unfold decryptSubkeys.body
  simp only [hsk, henc, hc spk passphrase hfail]
  simp [← hsk]

theorem passphraseCrypto_keeps : passphraseCrypto.FailedDecryptKeepsKey := by
  intro pk passphrase h
  by_cases h1 : pk.Encrypted = false
  · simp [passphraseCrypto, h1] at h
  · by_cases h2 : passphrase = pk.material
    · simp [passphraseCrypto, h1, h2] at h
    · simp [passphraseCrypto, h1, h2]

theorem passphraseCrypto_unlocks : passphraseCrypto.SuccessfulDecryptUnlocks := by
  intro pk passphrase h
  by_cases h1 : pk.Encrypted = false
  · simp [passphraseCrypto, h1]
  · by_cases h2 : passphrase = pk.material
    · simp [passphraseCrypto, h1, h2]
    · simp [passphraseCrypto, h1, h2] at h

/-- C2: for an entity whose primary private key is present and locked and a
passphrase on which decrypting that key fails, `UnlockPrivateKey` returns
`(false, nil)` and leaves the entity exactly as it was, its private material
still locked, so that a later call with a passphrase that decrypts the primary
key returns `(true, nil)`.  The call to the library is assumed to leave a key
untouched when it fails. -/
theorem UnlockPrivateKey_wrong_passphrase (c : Crypto) (hc : c.FailedDecryptKeepsKey)
    (e : Entity) (pk : PrivateKey) (wrong : List Nat)
    (hpk : e.PrivateKey = some pk) (henc : pk.Encrypted = true)
    (hfail : (c.Decrypt pk wrong).1 ≠ none) :
    (UnlockPrivateKey c e wrong).1 = (false, none)
      ∧ (UnlockPrivateKey c e wrong).2 = e
      ∧ lockedKey (UnlockPrivateKey c e wrong).2.PrivateKey = true
      ∧ ∀ correct : List Nat, (c.Decrypt pk correct).1 = none →
          (UnlockPrivateKey c (UnlockPrivateKey c e wrong).2 correct).1 = (true, none) := by
  have h := UnlockPrivateKey_failed c hc e pk wrong hpk henc hfail
  refine ⟨by rw [h], by rw [h], by rw [h]; simp [hpk, lockedKey, henc], ?_⟩
  intro correct hok
  rw [h, UnlockPrivateKey_succeeded c e pk correct hpk henc hok]

/-- Witness of C2: a key pair protected by the passphrase `[1]`, tried with `[9]`. -/
theorem UnlockPrivateKey_wrong_passphrase_witness :
    (UnlockPrivateKey passphraseCrypto (lockedPair [1] [1]) [9]).1 = (false, none)
      ∧ (UnlockPrivateKey passphraseCrypto (lockedPair [1] [1]) [9]).2 = lockedPair [1] [1]
      ∧ lockedKey (UnlockPrivateKey passphraseCrypto (lockedPair [1] [1]) [9]).2.PrivateKey = true
      ∧ ∀ correct : List Nat, (passphraseCrypto.Decrypt ⟨true, [1]⟩ correct).1 = none →
          (UnlockPrivateKey passphraseCrypto
            (UnlockPrivateKey passphraseCrypto (lockedPair [1] [1]) [9]).2 correct).1
            = (true, none) :=
  UnlockPrivateKey_wrong_passphrase passphraseCrypto passphraseCrypto_keeps
    (lockedPair [1] [1]) ⟨true, [1]⟩ [9] rfl rfl (by decide)

/-- C3: for an entity with a locked primary private key and a passphrase that
decrypts it, `UnlockPrivateKey` returns `(true, nil)`; afterwards the primary
key is unlocked, the subkeys are the same keys in the same order, and every
subkey whose private key the passphrase decrypts is unlocked.  A successful call
to the library is assumed to leave the key unprotected. -/
theorem UnlockPrivateKey_correct_passphrase (c : Crypto) (hc : c.SuccessfulDecryptUnlocks)
    (e : Entity) (pk : PrivateKey) (passphrase : List Nat)
    (hpk : e.PrivateKey = some pk) (henc : pk.Encrypted = true)
    (hok : (c.Decrypt pk passphrase).1 = none) :
    (UnlockPrivateKey c e passphrase).1 = (true, none)
      ∧ unlockedKey (UnlockPrivateKey c e passphrase).2.PrivateKey = true
      ∧ (UnlockPrivateKey c e passphrase).2.subkeys.length = e.subkeys.length
      ∧ ∀ (i : Nat) (sk : Subkey) (spk : PrivateKey),
          e.subkeys[i]? = some sk → sk.PrivateKey = some spk →
          (c.Decrypt spk passphrase).1 = none →
          ∃ sk1, (UnlockPrivateKey c e passphrase).2.subkeys[i]? = some sk1
            ∧ sk1.PublicKey = sk.PublicKey ∧ unlockedKey sk1.PrivateKey = true := by
  rw [UnlockPrivateKey_succeeded c e pk passphrase hpk henc hok]
  refine ⟨rfl, ?_, ?_, ?_⟩
  · rw [decryptSubkeys_PrivateKey]
    simp [unlockedKey, hc pk passphrase hok]
  · rw [decryptSubkeys_subkeys]
    simp [Entity.subkeys]
  · intro i sk spk hi hsk hsub
    refine ⟨decryptSubkeys.body c passphrase sk, ?_, body_PublicKey c passphrase sk,
      body_unlocked_of_success c hc passphrase sk spk hsk hsub⟩
    exact decryptSubkeys_getElem? c passphrase _ i sk hi

/-- Witness of C3: primary key and subkey both protected by the passphrase `[1]`. -/
theorem UnlockPrivateKey_correct_passphrase_witness :
    (UnlockPrivateKey passphraseCrypto (lockedPair [1] [1]) [1]).1 = (true, none)
      ∧ unlockedKey (UnlockPrivateKey passphraseCrypto (lockedPair [1] [1]) [1]).2.PrivateKey
          = true
      ∧ (UnlockPrivateKey passphraseCrypto (lockedPair [1] [1]) [1]).2.subkeys.length
          = (lockedPair [1] [1]).subkeys.length
      ∧ ∀ (i : Nat) (sk : Subkey) (spk : PrivateKey),
          (lockedPair [1] [1]).subkeys[i]? = some sk → sk.PrivateKey = some spk →
          (passphraseCrypto.Decrypt spk [1]).1 = none →
          ∃ sk1, (UnlockPrivateKey passphraseCrypto (lockedPair [1] [1]) [1]).2.subkeys[i]?
              = some sk1
            ∧ sk1.PublicKey = sk.PublicKey ∧ unlockedKey sk1.PrivateKey = true :=
  UnlockPrivateKey_correct_passphrase passphraseCrypto passphraseCrypto_unlocks
    (lockedPair [1] [1]) ⟨true, [1]⟩ [1] rfl rfl (by decide)

/-- C4, counterexample: a key pair whose primary key is protected by `[1]` and
whose subkey is protected by `[2]` starts with everything locked; after
`UnlockPrivateKey` with `[1]` the primary key is unlocked and the subkey is
still locked, so the entity is neither all unlocked nor all locked. -/
theorem UnlockPrivateKey_partial_unlock :
    (lockedPair [1] [2]).allLocked = true
      ∧ (UnlockPrivateKey passphraseCrypto (lockedPair [1] [2]) [1]).1 = (true, none)
      ∧ (UnlockPrivateKey passphraseCrypto (lockedPair [1] [2]) [1]).2.allUnlocked = false
      ∧ (UnlockPrivateKey passphraseCrypto (lockedPair [1] [2]) [1]).2.allLocked = false := by
  decide

/-- C4, amended: an entity whose primary key and subkeys all start locked has
a protected primary private key `pk`, and the outcome of `UnlockPrivateKey` is
decided by `Decrypt` on `pk`.  If it fails, `(false, nil)` is returned and the
entity is unchanged, all still locked.  If it succeeds, `(true, nil)` is
returned, the primary key is unlocked, and each subkey, at its index, is
unlocked when the passphrase decrypts its private key and left locked when it
does not: the outcome is all unlocked when the passphrase decrypts every
subkey, and neither all unlocked nor all locked as soon as one subkey is not
decrypted. -/
theorem UnlockPrivateKey_best_effort (c : Crypto)
    (hk : c.FailedDecryptKeepsKey) (hu : c.SuccessfulDecryptUnlocks)
    (e : Entity) (passphrase : List Nat) (hall : e.allLocked = true) :
    ∃ pk, e.PrivateKey = some pk ∧ pk.Encrypted = true
      ∧ ((c.Decrypt pk passphrase).1 ≠ none →
          (UnlockPrivateKey c e passphrase).1 = (false, none)
            ∧ (UnlockPrivateKey c e passphrase).2 = e
            ∧ (UnlockPrivateKey c e passphrase).2.allLocked = true)
      ∧ ((c.Decrypt pk passphrase).1 = none →
          (UnlockPrivateKey c e passphrase).1 = (true, none)
            ∧ unlockedKey (UnlockPrivateKey c e passphrase).2.PrivateKey = true
            ∧ (UnlockPrivateKey c e passphrase).2.subkeys.length = e.subkeys.length
            ∧ (∀ (i : Nat) (sk : Subkey) (spk : PrivateKey),
                e.subkeys[i]? = some sk → sk.PrivateKey = some spk →
                ∃ sk1, (UnlockPrivateKey c e passphrase).2.subkeys[i]? = some sk1
                  ∧ sk1.PublicKey = sk.PublicKey
                  ∧ ((c.Decrypt spk passphrase).1 = none → unlockedKey sk1.PrivateKey = true)
                  ∧ ((c.Decrypt spk passphrase).1 ≠ none → lockedKey sk1.PrivateKey = true))
            ∧ ((∀ sk ∈ e.subkeys, ∀ spk, sk.PrivateKey = some spk →
                  (c.Decrypt spk passphrase).1 = none) →
                (UnlockPrivateKey c e passphrase).2.allUnlocked = true)
            ∧ ((∃ sk ∈ e.subkeys, ∃ spk, sk.PrivateKey = some spk
                  ∧ (c.Decrypt spk passphrase).1 ≠ none) →
                (UnlockPrivateKey c e passphrase).2.allUnlocked = false
                  ∧ (UnlockPrivateKey c e passphrase).2.allLocked = false)) := by
  obtain ⟨hprim, hsubs⟩ : lockedKey e.PrivateKey = true
      ∧ ∀ sk ∈ e.subkeys, lockedKey sk.PrivateKey = true := by
    simpa [Entity.allLocked] using hall
  cases hpk : e.PrivateKey with
  | none => simp [hpk, lockedKey] at hprim
  | some pk =>
    have henc : pk.Encrypted = true := by simpa [hpk, lockedKey] using hprim
    refine ⟨pk, rfl, henc, fun hfail => ?_, fun hok => ?_⟩
    · rw [UnlockPrivateKey_failed c hk e pk passphrase hpk henc hfail]
      exact ⟨rfl, rfl, hall⟩
    · have hsubeq : ({ e with PrivateKey := some (c.Decrypt pk passphrase).2 } : Entity).subkeys
          = e.subkeys := rfl
      have hprim2 : unlockedKey (decryptSubkeys c
          { e with PrivateKey := some (c.Decrypt pk passphrase).2 } passphrase).PrivateKey
            = true := by
        rw [decryptSubkeys_PrivateKey]
        simp [unlockedKey, hu pk passphrase hok]
      rw [UnlockPrivateKey_succeeded c e pk passphrase hpk henc hok]
      refine ⟨rfl, hprim2, ?_, ?_, ?_, ?_⟩
      · rw [decryptSubkeys_subkeys]
        simp [Entity.subkeys]
      · intro i sk spk hi hsk
        refine ⟨decryptSubkeys.body c passphrase sk,
          decryptSubkeys_getElem? c passphrase _ i sk hi,
          body_PublicKey c passphrase sk,
          fun h => body_unlocked_of_success c hu passphrase sk spk hsk h, ?_⟩
        intro hfail
        have hl := hsubs sk (List.getElem?_mem hi)
        have hse : spk.Encrypted = true := by simpa [hsk, lockedKey] using hl
        rw [body_locked_of_failure c hk passphrase sk spk hsk hse hfail]
        exact hl
      · intro hevery
        unfold Entity.allUnlocked
        rw [hprim2, decryptSubkeys_subkeys]
        simp only [hsubeq, Bool.true_and, List.all_map, List.all_eq_true]
        intro sk hmem
        have hl := hsubs sk hmem
        cases hsk : sk.PrivateKey with
        | none => simp [hsk, lockedKey] at hl
        | some spk =>
          exact body_unlocked_of_success c hu passphrase sk spk hsk (hevery sk hmem spk hsk)
      · rintro ⟨sk, hmem, spk, hsk, hfail⟩
        have hl := hsubs sk hmem
        have hse : spk.Encrypted = true := by simpa [hsk, lockedKey] using hl
        have hbody := body_locked_of_failure c hk passphrase sk spk hsk hse hfail
        constructor
        · unfold Entity.allUnlocked
          rw [decryptSubkeys_subkeys, hsubeq, Bool.and_eq_false_iff]
          right
          rw [List.all_eq_false]
          refine ⟨decryptSubkeys.body c passphrase sk, List.mem_map_of_mem _ hmem, ?_⟩
          rw [hbody]
          simp [hsk, unlockedKey, hse]
        · unfold Entity.allLocked
          rw [Bool.and_eq_false_iff]
          left
          rw [decryptSubkeys_PrivateKey]
          simp [lockedKey, hu pk passphrase hok]

/-- Witness of C4 amended: the key pair of the counterexample; the passphrase
`[1]` decrypts the primary key and not the subkey. -/
theorem UnlockPrivateKey_best_effort_witness :
    (lockedPair [1] [2]).allLocked = true
      ∧ (UnlockPrivateKey passphraseCrypto (lockedPair [1] [2]) [1]).1 = (true, none)
      ∧ unlockedKey (UnlockPrivateKey passphraseCrypto (lockedPair [1] [2]) [1]).2.PrivateKey
          = true
      ∧ (UnlockPrivateKey passphraseCrypto (lockedPair [1] [2]) [1]).2.allUnlocked = false
      ∧ (UnlockPrivateKey passphraseCrypto (lockedPair [1] [2]) [1]).2.allLocked = false := by
  obtain ⟨pk, hpk, _, _, hok⟩ := UnlockPrivateKey_best_effort passphraseCrypto
    passphraseCrypto_keeps passphraseCrypto_unlocks (lockedPair [1] [2]) [1] (by decide)
  have hpk2 : pk = ⟨true, [1]⟩ := (Option.some.inj hpk).symm
  subst hpk2
  have h := hok (by decide)
  exact ⟨by decide, h.1, h.2.1,
    h.2.2.2.2.2 ⟨⟨⟨11, [], true, .rsa 2048⟩, some ⟨true, [2]⟩⟩, by decide, ⟨true, [2]⟩, rfl,
      by decide⟩⟩

/-! ## Incoming mail -/

/-- C5: for a body that parses to a message whose content type is neither
`multipart/encrypted` nor `multipart/signed` and whose body contains neither
inline marker, `processIncomingMail` returns no error; the result record has
`DecryptResult` not-encrypted and `VerifyResult` not-signed and is otherwise as
it was (no body, failure message, key ids or signer id written); the key store
is untouched and no collaborator operation (decrypt, verify) is invoked. -/
theorem processIncomingMail_plain (M : Mail) (body : String) (m : Message)
    (s : Served ProcessIncomingResult) (passphrase : Option (List Nat))
    (hparse : M.ParseMessage body = .done (.ok m))
    (hne : getContentType M m ≠ "multipart/encrypted")
    (hns : getContentType M m ≠ "multipart/signed")
    (hie : stringsContains m.Body "-----BEGIN PGP MESSAGE-----" = false)
    (his : stringsContains m.Body "-----BEGIN PGP SIGNED MESSAGE-----" = false) :
    processIncomingMail M body s passphrase
      = .returned none
          { result :=
              { VerifyResult := M.VerifyNotSigned
                DecryptResult := M.DecryptNotEncrypted
                EmailBody := s.result.EmailBody
                FailureMessage := s.result.FailureMessage
                EncryptedKeyIds := s.result.EncryptedKeyIds
                SignerKeyId := s.result.SignerKeyId }
            keys := s.keys
            calls := s.calls } := by
  have hneeds : needsIncomingProcessing M m = false := by
    simp [needsIncomingProcessing, isInlineEncrypted, isInlineSigned, hne, hns, hie, his]
  simp [processIncomingMail, hparse, hneeds]

/-- Witness of C5: a plain text body. -/
theorem processIncomingMail_plain_witness :
    processIncomingMail noKeysMail "hello" (Served.fresh ProcessIncomingResult.zero) none
      = .returned none
          { result := ⟨0, 0, "", "", [], ""⟩, keys := ⟨none, none⟩, calls := [] } :=
  processIncomingMail_plain noKeysMail "hello" ⟨[], "hello"⟩
    (Served.fresh ProcessIncomingResult.zero) none rfl (by decide) (by decide)
    (by decide) (by decide)

/-- C6, counterexample: the body carries both inline markers, so the message
enters the decrypt step; decryption fails; yet `Verify` is invoked afterwards,
and `VerifyResult` and `FailureMessage` of the result are those of the verify
step, not the ones the decrypt step recorded. -/
theorem processIncomingMail_verifies_after_failed_decrypt :
    isInlineEncrypted ⟨[], mixedBody⟩ = true
      ∧ noKeysMail.DecryptWith ⟨[], mixedBody⟩ ⟨none, none⟩ none
          = .done (⟨noKeysMail.DecryptFailed, ⟨noKeysMail.VerifyNotSigned, 0, ""⟩,
              "no secret key available", none⟩, ⟨[], mixedBody⟩, ⟨none, none⟩)
      ∧ processIncomingMail noKeysMail mixedBody (Served.fresh ProcessIncomingResult.zero) none
          = .returned none
              { result := ⟨noKeysMail.VerifyFailed, noKeysMail.DecryptFailed, "",
                  "no public key available", [], ""⟩
                keys := ⟨none, none⟩
                calls := [Call.decryptWith, Call.verify] } := by
  decide

theorem processEncrypted_record_failed (M : Mail) (status : DecryptionStatus) (m : Message)
    (result : ProcessIncomingResult) (hfailed : status.Code = M.DecryptFailed) :
    (processEncrypted.record M status m result).DecryptResult = M.DecryptFailed
      ∧ (processEncrypted.record M status m result).VerifyResult = status.VerifyStatus.Code
      ∧ (processEncrypted.record M status m result).FailureMessage = status.FailureMessage
      ∧ (processEncrypted.record M status m result).SignerKeyId = result.SignerKeyId := by
  unfold processEncrypted.record
  simp only [hfailed, if_true]
  refine ⟨?_, ?_, ?_, ?_⟩ <;> split_ifs <;> rfl

theorem processIncomingMail_after_decrypt (M : Mail) (body : String) (m m1 : Message)
    (s : Served ProcessIncomingResult) (passphrase : Option (List Nat))
    (status : DecryptionStatus) (keys1 : keyStore)
    (hparse : M.ParseMessage body = .done (.ok m))
    (henter : getContentType M m = "multipart/encrypted" ∨ isInlineEncrypted m = true)
    (hdec : M.DecryptWith m s.keys passphrase = .done (status, m1, keys1)) :
    processIncomingMail M body s passphrase
      = processIncomingMail.verifyStep M m1
          { result := processEncrypted.record M status m1
              { s.result with
                VerifyResult := M.VerifyNotSigned
                DecryptResult := M.DecryptNotEncrypted }
            keys := keys1
            calls := s.calls ++ [Call.decryptWith] } := by
  have hneeds : needsIncomingProcessing M m = true := by
    rcases henter with h | h
    · simp [needsIncomingProcessing, h]
    · simp [needsIncomingProcessing, h]
  simp only [processIncomingMail, hparse, hneeds, henter, processEncrypted, hdec]
  simp

/-- C6, amended: when the message enters the decrypt step and the decrypt
status is failed, the decrypt step records the status codes and the failure
message, and the signature step is then evaluated on the message as the decrypt
step leaves it.  If that message is neither `multipart/signed` nor carries the
inline signed marker, `Verify` is not invoked and `VerifyResult`, `SignerKeyId`
and `FailureMessage` are those of the decrypt step; if it is, `Verify` is
invoked on it and its status code becomes `VerifyResult`. -/
theorem processIncomingMail_failed_decrypt (M : Mail) (body : String) (m m1 : Message)
    (s : Served ProcessIncomingResult) (passphrase : Option (List Nat))
    (status : DecryptionStatus) (keys1 : keyStore)
    (hparse : M.ParseMessage body = .done (.ok m))
    (henter : getContentType M m = "multipart/encrypted" ∨ isInlineEncrypted m = true)
    (hdec : M.DecryptWith m s.keys passphrase = .done (status, m1, keys1))
    (hfailed : status.Code = M.DecryptFailed) :
    (¬ (getContentType M m1 = "multipart/signed" ∨ isInlineSigned m1 = true) →
        ∃ s1, processIncomingMail M body s passphrase = .returned none s1
          ∧ s1.calls = s.calls ++ [Call.decryptWith]
          ∧ s1.keys = keys1
          ∧ s1.result.DecryptResult = M.DecryptFailed
          ∧ s1.result.VerifyResult = status.VerifyStatus.Code
          ∧ s1.result.FailureMessage = status.FailureMessage
          ∧ s1.result.SignerKeyId = s.result.SignerKeyId)
      ∧ ((getContentType M m1 = "multipart/signed" ∨ isInlineSigned m1 = true) →
        (∀ (vs : VerifyStatus) (m2 : Message) (keys2 : keyStore),
          M.Verify m1 keys1 = .done (vs, m2, keys2) →
          ∃ s1, processIncomingMail M body s passphrase = .returned none s1
            ∧ s1.calls = s.calls ++ [Call.decryptWith, Call.verify]
            ∧ s1.result.DecryptResult = M.DecryptFailed
            ∧ s1.result.VerifyResult = vs.Code)
        ∧ (∀ v : String, M.Verify m1 keys1 = .fault v →
          ∃ s1, processIncomingMail M body s passphrase = .panicked v s1
            ∧ s1.calls = s.calls ++ [Call.decryptWith, Call.verify])) := by
  have hstep := processIncomingMail_after_decrypt M body m m1 s passphrase status keys1
    hparse henter hdec
  generalize hr0 : ({ s.result with
      VerifyResult := M.VerifyNotSigned
      DecryptResult := M.DecryptNotEncrypted } : ProcessIncomingResult) = r0 at hstep
  have hsig : r0.SignerKeyId = s.result.SignerKeyId := by rw [← hr0]
  have hrec := processEncrypted_record_failed M status m1 r0 hfailed
  refine ⟨fun hnot => ?_, fun hsigned => ⟨fun vs m2 keys2 hver => ?_, fun v hver => ?_⟩⟩
  · refine ⟨⟨processEncrypted.record M status m1 r0, keys1, s.calls ++ [Call.decryptWith]⟩,
      hstep.trans ?_, rfl, rfl, hrec.1, hrec.2.1, hrec.2.2.1, hrec.2.2.2.trans hsig⟩
    simp only [processIncomingMail.verifyStep, hnot, if_false]
  · refine ⟨⟨processSigned.record M vs (processEncrypted.record M status m1 r0), keys2,
      (s.calls ++ [Call.decryptWith]) ++ [Call.verify]⟩, hstep.trans ?_, ?_, ?_, ?_⟩
    · simp only [processIncomingMail.verifyStep, hsigned, if_true, processSigned, hver]
    · simp
    · unfold processSigned.record
      simp only []
      split_ifs <;> exact hrec.1
    · unfold processSigned.record
      simp only []
      split_ifs <;> rfl
  · refine ⟨⟨processEncrypted.record M status m1 r0, keys1,
      (s.calls ++ [Call.decryptWith]) ++ [Call.verify]⟩, hstep.trans ?_, ?_⟩
    · simp only [processIncomingMail.verifyStep, hsigned, if_true, processSigned, hver]
    · simp

/-- Witness of C6 amended: an inline armored message that cannot be decrypted
and carries no signed marker. -/
theorem processIncomingMail_failed_decrypt_witness :
    ∃ s1, processIncomingMail noKeysMail armoredBody
          (Served.fresh ProcessIncomingResult.zero) none = .returned none s1
      ∧ s1.calls = [] ++ [Call.decryptWith]
      ∧ s1.keys = ⟨none, none⟩
      ∧ s1.result.DecryptResult = noKeysMail.DecryptFailed
      ∧ s1.result.VerifyResult = 0
      ∧ s1.result.FailureMessage = "no secret key available"
      ∧ s1.result.SignerKeyId = "" :=
  (processIncomingMail_failed_decrypt noKeysMail armoredBody ⟨[], armoredBody⟩
    ⟨[], armoredBody⟩ (Served.fresh ProcessIncomingResult.zero) none
    ⟨2, ⟨0, 0, ""⟩, "no secret key available", none⟩ ⟨none, none⟩
    rfl (Or.inr (by decide)) rfl rfl).1 (by decide)

/-! ## Key generation and key info -/

theorem lookupByEmail_eq_filter (email : String) (keys : EntityList) :
    lookupByEmail email keys
      = keys.elems.filter (fun e => decide (declaresEmail email e)) := by
  cases keys with
  | none => simp [lookupByEmail, EntityList.elems]
  | some ks => simp [lookupByEmail, EntityList.elems, lookupByEmail_loop_eq]

theorem lookupByEmail_eq_nil (email : String) (keys : EntityList)
    (h : ∀ e ∈ keys.elems, ¬ declaresEmail email e) : lookupByEmail email keys = [] := by
  rw [lookupByEmail_eq_filter]
  exact List.filter_eq_nil_iff.2 (fun e he => by simpa using h e he)

theorem populateKeyInfo_flags (c : Crypto) (k : Entity) (info : GetKeyInfoResult) :
    (populateKeyInfo c k info).HasKey = true
      ∧ (populateKeyInfo c k info).HasSecretKey
          = (match k.PrivateKey with
              | some _ => true
              | none => info.HasSecretKey)
      ∧ (populateKeyInfo c k info).IsEncrypted
          = (match k.PrivateKey with
              | some pk => pk.Encrypted
              | none => info.IsEncrypted)
      ∧ (populateKeyInfo c k info).KeyData = (ArmorPublicKey c k).1 := by
  unfold populateKeyInfo
  cases h : k.PrivateKey with
  | none => simp
  | some pk => by_cases he : pk.Encrypted = false <;> simp [he]

theorem generateNewKey_keys (c : Crypto) (a : Agent) (name comment email : String) :
    (generateNewKey c a name comment email).2.keys = a.keys := by
  unfold generateNewKey
  cases c.NewEntity name comment email <;> rfl

/-- C7, counterexample: in an agent whose directory is empty, generating a key
for `alice@example.com` succeeds and reports the key in its own response, but a
`GetKeyInfo` request by that address afterwards finds no key. -/
theorem GenerateKeys_not_visible :
    (GenerateKeys passphraseCrypto emptyAgent aliceKeys GetKeyInfoResult.zero).1.1 = none
      ∧ (GenerateKeys passphraseCrypto emptyAgent aliceKeys GetKeyInfoResult.zero).1.2.HasKey
          = true
      ∧ (GetKeyInfo passphraseCrypto
          (GenerateKeys passphraseCrypto emptyAgent aliceKeys GetKeyInfoResult.zero).2.keys
          ⟨"alice@example.com", "", false⟩ GetKeyInfoResult.zero).2.HasKey = false := by
  decide

theorem serializeKey_content (fs : FileSystem) (dir fname : String)
    (writeKey : List Nat × Option String) :
    (serializeKey fs dir fname writeKey).2.content
      = (match fs.openError (fs.Join dir fname) with
          | some _ => fs.content
          | none => fun p =>
            if p = fs.Join dir fname then
              some ((fs.content p).getD [] ++ (fs.write (fs.Join dir fname) writeKey.1).1)
            else fs.content p) := by
  simp only [serializeKey]
  cases ho : fs.openError (fs.Join dir fname) with
  | some err => rfl
  | none =>
    simp only []
    cases hw : (fs.write (fs.Join dir fname) writeKey.1).2 <;> rfl

/-- C7, amended: when key generation succeeds, `GenerateKeys` returns no error
and its own response describes the generated entity: `HasKey` is true,
`HasSecretKey` is true and `IsEncrypted` false when the entity carries an
unprotected private key, and `KeyData` is what armoring its public key yields.
The in-memory directory is not changed, so every `GetKeyInfo` request answers
afterwards what it answered before, and by the generated address it finds no
key when no loaded entity declares that email.  The only effect besides the
response is on the secret keyring file: if it opens, what the serializer of
the private key gets written is appended to it (the whole serialization when
every write goes through), the file being created when missing; if it does not
open, nothing is written; either way the error of this step is discarded and
no other file changes. -/
theorem GenerateKeys_response_only (c : Crypto) (a : Agent) (args : GenerateKeysArgs)
    (result : GetKeyInfoResult) (e : Entity)
    (hgen : c.NewEntity args.RealName args.Comment args.Email = .ok e) :
    (GenerateKeys c a args result).1 = (none, populateKeyInfo c e result)
      ∧ (GenerateKeys c a args result).1.2.HasKey = true
      ∧ (∀ pk, e.PrivateKey = some pk → pk.Encrypted = false →
          (GenerateKeys c a args result).1.2.HasSecretKey = true
            ∧ (GenerateKeys c a args result).1.2.IsEncrypted = false)
      ∧ (GenerateKeys c a args result).1.2.KeyData = (ArmorPublicKey c e).1
      ∧ (GenerateKeys c a args result).2.keys = a.keys
      ∧ (∀ (q : GetKeyInfoArgs) (r0 : GetKeyInfoResult),
          GetKeyInfo c (GenerateKeys c a args result).2.keys q r0 = GetKeyInfo c a.keys q r0)
      ∧ (args.Email ≠ "" →
          (∀ x ∈ a.keys.secretKeys.elems ++ a.keys.publicKeys.elems,
            ¬ declaresEmail args.Email x) →
          ∀ (keyId : String) (lookup : Bool) (r0 : GetKeyInfoResult),
            GetKeyInfo c (GenerateKeys c a args result).2.keys ⟨args.Email, keyId, lookup⟩ r0
              = (none, r0))
      ∧ (GenerateKeys c a args result).2.nymsDirectory = a.nymsDirectory
      ∧ (∀ p : String, p ≠ a.fs.Join a.nymsDirectory "nymskeys.sec" →
          (GenerateKeys c a args result).2.fs.content p = a.fs.content p)
      ∧ (∀ err : String, a.fs.openError (a.fs.Join a.nymsDirectory "nymskeys.sec") = some err →
          (GenerateKeys c a args result).2.fs.content = a.fs.content)
      ∧ (a.fs.openError (a.fs.Join a.nymsDirectory "nymskeys.sec") = none →
          (GenerateKeys c a args result).2.fs.content (a.fs.Join a.nymsDirectory "nymskeys.sec")
              = some ((a.fs.content (a.fs.Join a.nymsDirectory "nymskeys.sec")).getD []
                  ++ (a.fs.write (a.fs.Join a.nymsDirectory "nymskeys.sec")
                        (c.SerializePrivate e).1).1)
            ∧ (a.fs.write (a.fs.Join a.nymsDirectory "nymskeys.sec") (c.SerializePrivate e).1
                  = ((c.SerializePrivate e).1, none) →
                (GenerateKeys c a args result).2.fs.content
                    (a.fs.Join a.nymsDirectory "nymskeys.sec")
                  = some ((a.fs.content (a.fs.Join a.nymsDirectory "nymskeys.sec")).getD []
                      ++ (c.SerializePrivate e).1))) := by
  have hstate : (GenerateKeys c a args result).2 = (addSecretKey c a e).2 := by
    simp [GenerateKeys, GenerateNewKey, generateNewKey, hgen]
  have hkeys : (GenerateKeys c a args result).2.keys = a.keys := by
    rw [hstate]; rfl
  have hres : (GenerateKeys c a args result).1 = (none, populateKeyInfo c e result) := by
    simp [GenerateKeys, GenerateNewKey, generateNewKey, hgen]
  have hcontent : (GenerateKeys c a args result).2.fs.content
      = (serializeKey a.fs a.nymsDirectory secretKeyringFilename
          (c.SerializePrivate e)).2.content := by
    rw [hstate]; rfl
  rw [serializeKey_content] at hcontent
  have hname : secretKeyringFilename = "nymskeys.sec" := rfl
  rw [hname] at hcontent
  have hflags := populateKeyInfo_flags c e result
  refine ⟨hres, ?_, ?_, ?_, hkeys, ?_, ?_, ?_, ?_, ?_, ?_⟩
  · rw [hres]; exact hflags.1
  · intro pk hpk henc
    rw [hres]
    refine ⟨?_, ?_⟩
    · rw [hflags.2.1, hpk]
    · rw [hflags.2.2.1, hpk]; exact henc
  · rw [hres]; exact hflags.2.2.2
  · intro q r0; rw [hkeys]
  · intro hne hnone keyId lookup r0
    rw [hkeys]
    have hs : lookupByEmail args.Email a.keys.secretKeys = [] :=
      lookupByEmail_eq_nil _ _ (fun x hx => hnone x (List.mem_append_left _ hx))
    have hp : lookupByEmail args.Email a.keys.publicKeys = [] :=
      lookupByEmail_eq_nil _ _ (fun x hx => hnone x (List.mem_append_right _ hx))
    simp [GetKeyInfo, handleGetKeyInfo, hne, getEntityByEmail, keyStore.GetSecretKey,
      keyStore.GetPublicKey, keyStore.lookupSecretKey, keyStore.lookupPublicKey, hs, hp]
  · rw [hstate]; rfl
  · intro p hp
    rw [hcontent]
    cases ho : a.fs.openError (a.fs.Join a.nymsDirectory "nymskeys.sec") with
    | some err => rfl
    | none => simp only [hp, if_false]
  · intro err ho
    rw [hcontent, ho]
  · intro ho
    have hc : (GenerateKeys c a args result).2.fs.content
          (a.fs.Join a.nymsDirectory "nymskeys.sec")
        = some ((a.fs.content (a.fs.Join a.nymsDirectory "nymskeys.sec")).getD []
            ++ (a.fs.write (a.fs.Join a.nymsDirectory "nymskeys.sec")
                  (c.SerializePrivate e).1).1) := by
      rw [hcontent, ho]
      simp only [if_true]
    refine ⟨hc, fun hw => ?_⟩
    rw [hc, hw]

/-- Witness of C7 amended: Alice in the empty directory; the two bytes of the
private serialization make up the new secret keyring file. -/
theorem GenerateKeys_response_only_witness :
    (GenerateKeys passphraseCrypto emptyAgent aliceKeys GetKeyInfoResult.zero).1.2.HasKey = true
      ∧ (GenerateKeys passphraseCrypto emptyAgent aliceKeys GetKeyInfoResult.zero).2.keys
          = emptyAgent.keys
      ∧ (GenerateKeys passphraseCrypto emptyAgent aliceKeys GetKeyInfoResult.zero).2.fs.content
          "/home/alice/.nyms/nymskeys.sec" = some [1, 0]
      ∧ (GenerateKeys passphraseCrypto readOnlyAgent aliceKeys GetKeyInfoResult.zero).1.1 = none
      ∧ (GenerateKeys passphraseCrypto readOnlyAgent aliceKeys GetKeyInfoResult.zero).2.fs.content
          = readOnlyAgent.fs.content :=
  have h := GenerateKeys_response_only passphraseCrypto emptyAgent aliceKeys
    GetKeyInfoResult.zero _ rfl
  have h2 := GenerateKeys_response_only passphraseCrypto readOnlyAgent aliceKeys
    GetKeyInfoResult.zero _ rfl
  ⟨h.2.1, h.2.2.2.2.1, (h.2.2.2.2.2.2.2.2.2.2 rfl).1, congrArg Prod.fst h2.1,
    h2.2.2.2.2.2.2.2.2.2.1 _ rfl⟩

/-! ## The facade -/

/-- C8: `ProcessIncoming` runs under `catchPanic` and never lets a fault out:
it always returns, and a fault of the decrypt operation comes back as an error
carrying the diagnostic message.  `ProcessOutgoing` has no such guard: on a
signing request whose `Sign` call faults, the fault propagates out of the
operation instead of becoming an error response. -/
theorem facade_fault_isolation :
    (∀ (M : Mail) (args : ProcessIncomingArgs) (s : Served ProcessIncomingResult),
        ∃ e s1, ProcessIncoming M args s = .returned e s1)
      ∧ ProcessIncoming faultyMail ⟨armoredBody, ""⟩ (Served.fresh ProcessIncomingResult.zero)
          = .returned
              (some ("PANIC! caught from function ProcessIncoming : " ++ nilDereference))
              ⟨ProcessIncomingResult.zero, ⟨none, none⟩, [Call.decryptWith]⟩
      ∧ ProcessOutgoing faultyMail ⟨true, false, "hello", "secret"⟩
            (Served.fresh ProcessOutgoingResult.zero)
          = .panicked nilDereference
              ⟨ProcessOutgoingResult.zero, ⟨none, none⟩, [Call.sign]⟩ := by
  refine ⟨?_, by decide, by decide⟩
  intro M args s
  by_cases hp : args.Passphrase = ""
  · simp only [ProcessIncoming, hp, if_true]
    cases processIncomingMail M args.EmailBody s none with
    | returned e s1 => exact ⟨_, _, rfl⟩
    | panicked v s1 => exact ⟨_, _, rfl⟩
  · simp only [ProcessIncoming, hp, if_false]
    cases processIncomingMail M args.EmailBody s (some (bytesOf args.Passphrase)) with
    | returned e s1 => exact ⟨_, _, rfl⟩
    | panicked v s1 => exact ⟨_, _, rfl⟩

theorem lookupByEmail_ne_nil (email : String) (keys : EntityList) (e : Entity)
    (he : e ∈ keys.elems) (hd : declaresEmail email e) : lookupByEmail email keys ≠ [] := by
  rw [lookupByEmail_eq_filter]
  intro hnil
  have := List.filter_eq_nil_iff.1 hnil e he
  simp [hd] at this

theorem decodeKeyId_empty :
    decodeKeyId "" = .error "keyId is not 8 bytes as expected, got 0" := by
  rfl

/-- C9: if address and key id are both empty, or no entity of the secret or
public collection matches the request, `GetKeyInfo` returns no error and leaves
the record as it was, so that the zero record of the reply keeps all presence
flags false and every other field empty.  When an entity is resolved the error
is nil and `HasKey` is true; a matching request always resolves an entity; and
the first match of the secret collection is taken whenever there is one, by
address as well as by key id, whatever the public collection holds. -/
theorem GetKeyInfo_resolution (c : Crypto) (store : keyStore) (args : GetKeyInfoArgs)
    (r0 : GetKeyInfoResult) :
    (((args.Address = "" ∧ args.KeyId = "") ∨ ¬ matchesRequest c store args) →
        GetKeyInfo c store args r0 = (none, r0)
          ∧ GetKeyInfo c store args GetKeyInfoResult.zero
              = (none, ⟨false, false, false, "", "", "", [], "", "", ""⟩))
      ∧ (∀ k, handleGetKeyInfo c store args.Address args.KeyId = some k →
          GetKeyInfo c store args r0 = (none, populateKeyInfo c k r0)
            ∧ (GetKeyInfo c store args r0).2.HasKey = true)
      ∧ (matchesRequest c store args →
          ∃ k, handleGetKeyInfo c store args.Address args.KeyId = some k)
      ∧ (args.Address ≠ "" → ∀ k rest,
          lookupByEmail args.Address store.secretKeys = k :: rest →
          handleGetKeyInfo c store args.Address args.KeyId = some k)
      ∧ (args.Address = "" → ∀ id k rest, decodeKeyId args.KeyId = .ok id →
          c.KeysById store.secretKeys id = k :: rest →
          handleGetKeyInfo c store args.Address args.KeyId = some k.Entity) := by
  have hnone : ((args.Address = "" ∧ args.KeyId = "") ∨ ¬ matchesRequest c store args) →
      handleGetKeyInfo c store args.Address args.KeyId = none := by
    rintro (⟨ha, hk⟩ | hno)
    · simp [handleGetKeyInfo, ha, hk]
    · by_cases ha : args.Address = ""
      · by_cases hk : args.KeyId = ""
        · simp [handleGetKeyInfo, ha, hk]
        · simp only [handleGetKeyInfo, ha, hk, ne_eq, not_true_eq_false, if_false,
            not_false_eq_true, if_true, getEntityByKeyId]
          cases hdec : decodeKeyId args.KeyId with
          | error err => rfl
          | ok id =>
            have hboth : c.KeysById store.secretKeys id = []
                ∧ c.KeysById store.publicKeys id = [] := by
              by_contra hcon
              apply hno
              unfold matchesRequest
              simp only [ha, ne_eq, not_true_eq_false, if_false]
              refine ⟨id, hdec, ?_⟩
              by_contra hneither
              exact hcon ⟨by_contra fun h => hneither (Or.inl h),
                by_contra fun h => hneither (Or.inr h)⟩
            simp [keyStore.GetSecretKeyById, keyStore.GetPublicKeyById, hboth.1, hboth.2]
      · have hs : lookupByEmail args.Address store.secretKeys = [] :=
          lookupByEmail_eq_nil _ _ (fun x hx hd => hno (by
            unfold matchesRequest
            simp only [ne_eq, ha, not_false_eq_true, if_true]
            exact ⟨x, List.mem_append_left _ hx, hd⟩))
        have hp : lookupByEmail args.Address store.publicKeys = [] :=
          lookupByEmail_eq_nil _ _ (fun x hx hd => hno (by
            unfold matchesRequest
            simp only [ne_eq, ha, not_false_eq_true, if_true]
            exact ⟨x, List.mem_append_right _ hx, hd⟩))
        simp [handleGetKeyInfo, ha, getEntityByEmail, keyStore.GetSecretKey,
          keyStore.GetPublicKey, keyStore.lookupSecretKey, keyStore.lookupPublicKey, hs, hp]
  refine ⟨?_, ?_, ?_, ?_, ?_⟩
  · intro h
    have hn := hnone h
    constructor
    · simp [GetKeyInfo, hn]
    · simp [GetKeyInfo, hn, GetKeyInfoResult.zero]
  · intro k hk
    have h1 : GetKeyInfo c store args r0 = (none, populateKeyInfo c k r0) := by
      simp [GetKeyInfo, hk]
    exact ⟨h1, by rw [h1]; exact (populateKeyInfo_flags c k r0).1⟩
  · intro hm
    unfold matchesRequest at hm
    by_cases ha : args.Address = ""
    · simp only [ha, ne_eq, not_true_eq_false, if_false] at hm
      obtain ⟨id, hdec, hor⟩ := hm
      have hk : args.KeyId ≠ "" := by
        intro hk
        rw [hk, decodeKeyId_empty] at hdec
        cases hdec
      simp only [handleGetKeyInfo, ha, hk, ne_eq, not_true_eq_false, if_false,
        not_false_eq_true, if_true, getEntityByKeyId, hdec]
      cases hsec : c.KeysById store.secretKeys id with
      | cons k rest => exact ⟨k.Entity, by simp [keyStore.GetSecretKeyById, hsec]⟩
      | nil =>
        cases hpub : c.KeysById store.publicKeys id with
        | cons k rest =>
          exact ⟨k.Entity, by simp [keyStore.GetSecretKeyById, keyStore.GetPublicKeyById,
            hsec, hpub]⟩
        | nil => simp [hsec, hpub] at hor
    · simp only [ne_eq, ha, not_false_eq_true, if_true] at hm
      obtain ⟨e, he, hd⟩ := hm
      simp only [handleGetKeyInfo, ha, ne_eq, not_false_eq_true, if_true, getEntityByEmail,
        keyStore.GetSecretKey, keyStore.GetPublicKey, keyStore.lookupSecretKey,
        keyStore.lookupPublicKey]
      cases hsec : lookupByEmail args.Address store.secretKeys with
      | cons k rest => exact ⟨k, rfl⟩
      | nil =>
        cases hpub : lookupByEmail args.Address store.publicKeys with
        | cons k rest => exact ⟨k, rfl⟩
        | nil =>
          rcases List.mem_append.1 he with h | h
          · exact absurd hsec (lookupByEmail_ne_nil _ _ e h hd)
          · exact absurd hpub (lookupByEmail_ne_nil _ _ e h hd)
  · intro ha k rest hsec
    simp [handleGetKeyInfo, ha, getEntityByEmail, keyStore.GetSecretKey,
      keyStore.lookupSecretKey, hsec]
  · intro ha id k rest hdec hsec
    have hk : args.KeyId ≠ "" := by
      intro hk
      rw [hk, decodeKeyId_empty] at hdec
      cases hdec
    simp [handleGetKeyInfo, ha, hk, getEntityByKeyId, hdec, keyStore.GetSecretKeyById, hsec]

/-- Witness of C9: in the empty directory a request by address resolves
nothing; in a directory holding a key pair the secret entity is the one
resolved. -/
theorem GetKeyInfo_resolution_witness :
    (GetKeyInfo passphraseCrypto emptyAgent.keys ⟨"alice@example.com", "", false⟩
        GetKeyInfoResult.zero
        = (none, ⟨false, false, false, "", "", "", [], "", "", ""⟩))
      ∧ handleGetKeyInfo passphraseCrypto oneKeyStore "user4@example.com" ""
          = some (lockedPair [1] [1]) :=
  have h1 := GetKeyInfo_resolution passphraseCrypto emptyAgent.keys
    ⟨"alice@example.com", "", false⟩ GetKeyInfoResult.zero
  have h2 := GetKeyInfo_resolution passphraseCrypto oneKeyStore
    ⟨"user4@example.com", "", false⟩ GetKeyInfoResult.zero
  ⟨(h1.1 (Or.inr (by simp [matchesRequest, emptyAgent, EntityList.elems]))).2,
    h2.2.2.2.1 (by decide) (lockedPair [1] [1]) [] (by decide)⟩

/-! ## Outgoing mail -/

/-- C10: for a body that parses as a message, `processOutgoingMail` with
`sign = false` and `encrypt = false` returns no error and leaves the result
record, the key store and the list of invoked operations exactly as they were
(no sign or encrypt operation runs), and so does the facade operation.  On the
zero record of a reply the status code therefore stays 0, which reports success
(neither failure code of `pgpmail`, both taken to be nonzero), with no failure
message, no missing addresses and no replacement body. -/
theorem processOutgoingMail_noop (M : Mail) (body passphrase : String) (m : Message)
    (s : Served ProcessOutgoingResult)
    (hparse : M.ParseMessage body = .done (.ok m)) :
    processOutgoingMail M body false false passphrase s = .returned none s
      ∧ ProcessOutgoing M ⟨false, false, body, passphrase⟩ s = .returned none s
      ∧ (M.StatusFailed ≠ 0 → M.StatusFailedNeedPubkeys ≠ 0 →
          ∀ keys : keyStore, ∃ s1,
            processOutgoingMail M body false false passphrase
                ⟨ProcessOutgoingResult.zero, keys, []⟩ = .returned none s1
              ∧ s1.calls = []
              ∧ M.reportsSuccess s1.result.ResultCode
              ∧ s1.result.FailureMessage = ""
              ∧ s1.result.MissingKeyAddresses = []
              ∧ s1.result.EmailBody = "") := by
  have h : ∀ s0 : Served ProcessOutgoingResult,
      processOutgoingMail M body false false passphrase s0 = .returned none s0 := by
    intro s0
    simp [processOutgoingMail, hparse, needsOutgoingProcessing]
  refine ⟨h s, ?_, ?_⟩
  · simp [ProcessOutgoing, h s]
  · intro hf hm keys
    exact ⟨_, h _, rfl, ⟨fun e => hf e.symm, fun e => hm e.symm⟩, rfl, rfl, rfl⟩

/-- Witness of C10: the body `hello` with no operation requested. -/
theorem processOutgoingMail_noop_witness :
    processOutgoingMail noKeysMail "hello" false false "secret"
        (Served.fresh ProcessOutgoingResult.zero)
      = .returned none (Served.fresh ProcessOutgoingResult.zero) :=
  (processOutgoingMail_noop noKeysMail "hello" "secret" ⟨[], "hello"⟩
    (Served.fresh ProcessOutgoingResult.zero) rfl).1

/-! ## The key id codec -/

theorem fromHexChar_hextable (n : Nat) (hn : n < 16) :
    fromHexChar (hextable.getD n '0') = some n := by
  interval_cases n <;> rfl

theorem hextable_getD_mem (n : Nat) : hextable.getD n '0' ∈ hextable := by
  by_cases hn : n < 16
  · interval_cases n <;> decide
  · have hlen : hextable.length ≤ n := by
      have : hextable.length = 16 := rfl
      omega
    rw [List.getD_eq_default _ _ hlen]
    decide

theorem hexDecodeLoop_hexByte (b : Nat) (hb : b < 256) (rest : List Char) :
    hexDecodeLoop (hexByte b ++ rest)
      = (match hexDecodeLoop rest with
          | .ok bs => .ok (b :: bs)
          | .error err => .error err) := by
  have h1 : fromHexChar (hextable.getD (b / 16 % 16) '0') = some (b / 16 % 16) :=
    fromHexChar_hextable _ (Nat.mod_lt _ (by decide))
  have h2 : fromHexChar (hextable.getD (b % 16) '0') = some (b % 16) :=
    fromHexChar_hextable _ (Nat.mod_lt _ (by decide))
  have h3 : b / 16 % 16 * 16 + b % 16 = b := by omega
  simp only [hexByte, List.cons_append, List.nil_append, hexDecodeLoop, h1, h2, h3]
  rfl

theorem hexDecodeLoop_flatMap (bs : List Nat) (hbs : ∀ b ∈ bs, b < 256) :
    hexDecodeLoop (bs.flatMap hexByte) = .ok bs := by
  induction bs with
  | nil => rfl
  | cons b rest ih =>
    have hrest : ∀ x ∈ rest, x < 256 := fun x hx => hbs x (List.mem_cons_of_mem _ hx)
    rw [List.flatMap_cons, hexDecodeLoop_hexByte b (hbs b (List.mem_cons_self _ _)), ih hrest]

theorem flatMap_hexByte_length (bs : List Nat) :
    (bs.flatMap hexByte).length = 2 * bs.length := by
  induction bs with
  | nil => rfl
  | cons b rest ih =>
    rw [List.flatMap_cons, List.length_append, ih]
    simp only [hexByte, List.length_cons, List.length_nil]
    omega

theorem flatMap_hexByte_mem (bs : List Nat) (ch : Char) (h : ch ∈ bs.flatMap hexByte) :
    ch ∈ hextable := by
  obtain ⟨b, _, hb⟩ := List.mem_flatMap.1 h
  simp only [hexByte, List.mem_cons, List.mem_singleton, List.not_mem_nil, or_false] at hb
  rcases hb with hb | hb <;> rw [hb] <;> exact hextable_getD_mem _

theorem putUint64_lt (v b : Nat) (hb : b ∈ putUint64 v) : b < 256 := by
  simp only [putUint64, List.mem_cons, List.mem_singleton, List.not_mem_nil, or_false] at hb
  omega

theorem uint64Of_putUint64 (v : Nat) (hv : v < 2 ^ 64) : uint64Of (putUint64 v) = v := by
  simp only [uint64Of, putUint64, List.getD_cons_zero, List.getD_cons_succ]
  omega

theorem hexDecodeString_encodeKeyId (id : Nat) :
    hexDecodeString (encodeKeyId id) = .ok (putUint64 id) := by
  have hlen : ((putUint64 id).flatMap hexByte).length % 2 = 0 := by
    rw [flatMap_hexByte_length]; omega
  simp only [hexDecodeString, encodeKeyId, hexEncodeToString]
  rw [if_neg (by omega)]
  exact hexDecodeLoop_flatMap _ (putUint64_lt id)

theorem decodeKeyId_encodeKeyId (id : Nat) (hid : id < 2 ^ 64) :
    decodeKeyId (encodeKeyId id) = .ok id := by
  unfold decodeKeyId
  rw [hexDecodeString_encodeKeyId]
  have hlen : (putUint64 id).length = 8 := rfl
  simp only [hlen, ne_eq, not_true_eq_false, if_false, uint64Of_putUint64 id hid]

theorem hexDecodeLoop_ok : ∀ (cs : List Char) (bs : List Nat),
    hexDecodeLoop cs = .ok bs →
      cs.length = 2 * bs.length ∧ ∀ ch ∈ cs, (fromHexChar ch).isSome = true
  | [], bs, h => by
    simp only [hexDecodeLoop, Except.ok.injEq] at h
    subst h
    simp
  | [_], bs, h => by simp [hexDecodeLoop] at h
  | a :: b :: rest, bs, h => by
    unfold hexDecodeLoop at h
    cases ha : fromHexChar a with
    | none => simp [ha] at h
    | some x =>
      cases hb : fromHexChar b with
      | none => simp [ha, hb] at h
      | some y =>
        cases hr : hexDecodeLoop rest with
        | error err => simp [ha, hb, hr] at h
        | ok bs1 =>
          simp only [ha, hb, hr, Except.ok.injEq] at h
          subst h
          obtain ⟨hl, hm⟩ := hexDecodeLoop_ok rest bs1 hr
          refine ⟨by simp only [List.length_cons]; omega, ?_⟩
          intro ch hch
          simp only [List.mem_cons] at hch
          rcases hch with hch | hch | hch
          · rw [hch, ha]; rfl
          · rw [hch, hb]; rfl
          · exact hm ch hch

theorem hexDecodeLoop_of_digits : ∀ (n : Nat) (cs : List Char),
    cs.length = 2 * n → (∀ ch ∈ cs, (fromHexChar ch).isSome = true) →
      ∃ bs, hexDecodeLoop cs = .ok bs ∧ bs.length = n
  | 0, cs, hl, _ => by
    have : cs = [] := List.length_eq_zero.1 (by omega)
    subst this
    exact ⟨[], rfl, rfl⟩
  | n + 1, [], hl, _ => by simp at hl
  | n + 1, [_], hl, _ => by simp only [List.length_cons, List.length_nil] at hl; omega
  | n + 1, a :: b :: rest, hl, hd => by
    have hlr : rest.length = 2 * n := by simp only [List.length_cons] at hl; omega
    obtain ⟨bs, hbs, hlen⟩ := hexDecodeLoop_of_digits n rest hlr
      (fun ch hch => hd ch (List.mem_cons_of_mem _ (List.mem_cons_of_mem _ hch)))
    obtain ⟨x, hx⟩ := Option.isSome_iff_exists.1 (hd a (List.mem_cons_self _ _))
    obtain ⟨y, hy⟩ := Option.isSome_iff_exists.1
      (hd b (List.mem_cons_of_mem _ (List.mem_cons_self _ _)))
    refine ⟨(x * 16 + y) :: bs, ?_, by simp [hlen]⟩
    unfold hexDecodeLoop
    simp only [hx, hy, hbs]

theorem decodeKeyId_ok_iff (s : String) :
    (∃ v, decodeKeyId s = .ok v)
      ↔ s.data.length = 16 ∧ ∀ ch ∈ s.data, (fromHexChar ch).isSome = true := by
  constructor
  · rintro ⟨v, hv⟩
    unfold decodeKeyId hexDecodeString at hv
    by_cases hodd : s.data.length % 2 = 1
    · rw [if_pos hodd] at hv
      cases hv
    · rw [if_neg hodd] at hv
      cases hr : hexDecodeLoop s.data with
      | error err => simp [hr] at hv
      | ok bs =>
        obtain ⟨hl, hm⟩ := hexDecodeLoop_ok s.data bs hr
        by_cases h8 : bs.length = 8
        · exact ⟨by omega, hm⟩
        · simp [hr, h8] at hv
  · rintro ⟨hl, hm⟩
    obtain ⟨bs, hbs, hlen⟩ := hexDecodeLoop_of_digits 8 s.data (by omega) hm
    refine ⟨uint64Of bs, ?_⟩
    unfold decodeKeyId hexDecodeString
    rw [if_neg (by omega)]
    simp [hbs, hlen]

theorem charRange (lo hi ch : Char) (h : lo ≤ ch ∧ ch ≤ hi) :
    lo.toNat ≤ ch.toNat ∧ ch.toNat ≤ hi.toNat := by
  obtain ⟨h1, h2⟩ := h
  rw [Char.le_def, UInt32.le_def, BitVec.le_def] at h1 h2
  exact ⟨h1, h2⟩

theorem fromHexChar_isSome_iff (ch : Char) :
    (fromHexChar ch).isSome = true ↔ isHexDigit ch := by
  constructor
  · intro h
    have hc : ch = Char.ofNat ch.toNat := (Char.ofNat_toNat ch).symm
    unfold fromHexChar at h
    unfold isHexDigit
    split_ifs at h with h1 h2 h3
    · obtain ⟨l, u⟩ := charRange _ _ _ h1
      have l1 : 48 ≤ ch.toNat := l
      have u1 : ch.toNat ≤ 57 := u
      generalize ch.toNat = n at hc l1 u1
      subst hc
      interval_cases n <;> decide
    · obtain ⟨l, u⟩ := charRange _ _ _ h2
      have l1 : 97 ≤ ch.toNat := l
      have u1 : ch.toNat ≤ 102 := u
      generalize ch.toNat = n at hc l1 u1
      subst hc
      interval_cases n <;> decide
    · obtain ⟨l, u⟩ := charRange _ _ _ h3
      have l1 : 65 ≤ ch.toNat := l
      have u1 : ch.toNat ≤ 70 := u
      generalize ch.toNat = n at hc l1 u1
      subst hc
      interval_cases n <;> decide
    · cases h
  · intro h
    have hall : ∀ x ∈ "0123456789abcdefABCDEF".data, (fromHexChar x).isSome = true := by
      decide
    exact hall ch h

theorem bigEndianValue_putUint64 (v : Nat) (hv : v < 2 ^ 64) :
    bigEndianValue (putUint64 v) = v := by
  simp only [bigEndianValue, putUint64, List.foldl_cons, List.foldl_nil]
  omega

theorem foldl_append_singleton {α β : Type} (f : α → β) (xs : List α) (init : List β) :
    xs.foldl (fun acc x => acc ++ [f x]) init = init ++ xs.map f := by
  induction xs generalizing init with
  | nil => simp
  | cons x rest ih => simp [ih]

/-- C11: for every 64-bit key id, `encodeKeyId` yields exactly 16 lowercase
hexadecimal digits, the hexadecimal form of the 8 big-endian bytes of the id,
and `decodeKeyId` of it succeeds and returns the id.  Hence a reported key id
is taken back as the same id: `getEntityByKeyId` (behind `GetKeyInfo`) and
`Protocol.UnlockPrivateKey` look up exactly that id, and the `KeyId` of a key
info record, the `SignerKeyId` of a verify step and every entry the decrypt
step appends to `EncryptedKeyIds` are such encodings.  `decodeKeyId` succeeds
exactly on the texts of 16 hexadecimal digits, and fails on every other. -/
theorem keyId_codec_roundtrip (id : Nat) (hid : id < 2 ^ 64) :
    (encodeKeyId id).data.length = 16
      ∧ (∀ ch ∈ (encodeKeyId id).data, isLowerHexDigit ch)
      ∧ (hexDecodeString (encodeKeyId id) = .ok (putUint64 id)
          ∧ (putUint64 id).length = 8
          ∧ (∀ b ∈ putUint64 id, b < 256)
          ∧ bigEndianValue (putUint64 id) = id)
      ∧ decodeKeyId (encodeKeyId id) = .ok id
      ∧ (∀ (c : Crypto) (store : keyStore),
          getEntityByKeyId c store (encodeKeyId id)
            = (match store.GetSecretKeyById c id with
                | some k => some k
                | none => store.GetPublicKeyById c id))
      ∧ (∀ (c : Crypto) (store : keyStore) (passphrase : String) (result : Bool),
          Protocol.UnlockPrivateKey c store ⟨encodeKeyId id, passphrase⟩ result
            = Protocol.UnlockPrivateKey.byId c store id passphrase result)
      ∧ (∀ (c : Crypto) (k : Entity) (info : GetKeyInfoResult), k.PrimaryKey.KeyId = id →
          decodeKeyId (populateKeyInfo c k info).KeyId = .ok id)
      ∧ (∀ (M : Mail) (status : VerifyStatus) (result : ProcessIncomingResult),
          status.SignerKeyId = id → id ≠ 0 →
          decodeKeyId (processSigned.record M status result).SignerKeyId = .ok id)
      ∧ (∀ (M : Mail) (status : DecryptionStatus) (m : Message)
            (result : ProcessIncomingResult) (ids : List Nat),
          status.KeyIds = some ids → status.Code = M.DecryptPassphraseNeeded →
          (processEncrypted.record M status m result).EncryptedKeyIds
              = result.EncryptedKeyIds ++ ids.map encodeKeyId
            ∧ (id ∈ ids →
                encodeKeyId id ∈ (processEncrypted.record M status m result).EncryptedKeyIds))
      ∧ (∀ s : String, (∃ v, decodeKeyId s = .ok v)
          ↔ s.data.length = 16 ∧ ∀ ch ∈ s.data, isHexDigit ch)
      ∧ (∀ s : String, ¬ (s.data.length = 16 ∧ ∀ ch ∈ s.data, isHexDigit ch) →
          ∃ err, decodeKeyId s = .error err) := by
  have hdec := decodeKeyId_encodeKeyId id hid
  have hiff : ∀ s : String, (∃ v, decodeKeyId s = .ok v)
      ↔ s.data.length = 16 ∧ ∀ ch ∈ s.data, isHexDigit ch := by
    intro s
    rw [decodeKeyId_ok_iff]
    constructor
    · rintro ⟨hl, hm⟩
      exact ⟨hl, fun ch hch => (fromHexChar_isSome_iff ch).1 (hm ch hch)⟩
    · rintro ⟨hl, hm⟩
      exact ⟨hl, fun ch hch => (fromHexChar_isSome_iff ch).2 (hm ch hch)⟩
  refine ⟨?_, ?_, ⟨hexDecodeString_encodeKeyId id, rfl, putUint64_lt id,
    bigEndianValue_putUint64 id hid⟩, hdec, ?_, ?_, ?_, ?_, ?_, hiff, ?_⟩
  · simp only [encodeKeyId, hexEncodeToString, flatMap_hexByte_length]
    rfl
  · intro ch hch
    exact flatMap_hexByte_mem (putUint64 id) ch hch
  · intro c store
    simp only [getEntityByKeyId, hdec]
  · intro c store passphrase result
    simp only [Protocol.UnlockPrivateKey, hdec]
  · intro c k info hk
    have hkey : (populateKeyInfo c k info).KeyId = encodeKeyId k.PrimaryKey.KeyId := by
      unfold populateKeyInfo
      rfl
    rw [hkey, hk, hdec]
  · intro M status result hs hne
    have hkey : (processSigned.record M status result).SignerKeyId = encodeKeyId id := by
      unfold processSigned.record
      simp only [hs, ne_eq, hne, not_false_eq_true, if_true]
    rw [hkey, hdec]
  · intro M status m result ids hids hcode
    have hkey : (processEncrypted.record M status m result).EncryptedKeyIds
        = result.EncryptedKeyIds ++ ids.map encodeKeyId := by
      unfold processEncrypted.record
      simp only [hids, hcode, ne_eq, not_false_eq_true, and_self, if_true, Option.getD_some,
        foldl_append_singleton, reduceCtorEq]
      split_ifs <;> rfl
    refine ⟨hkey, fun hmem => ?_⟩
    rw [hkey]
    exact List.mem_append_right _ (List.mem_map_of_mem _ hmem)
  · intro s hnot
    cases hr : decodeKeyId s with
    | error err => exact ⟨err, rfl⟩
    | ok v => exact absurd ((hiff s).1 ⟨v, hr⟩) hnot

/-- Witness of C11: the key id `0x1234567890abcdef`. -/
theorem keyId_codec_roundtrip_witness :
    encodeKeyId 0x1234567890abcdef = "1234567890abcdef"
      ∧ (encodeKeyId 0x1234567890abcdef).data.length = 16
      ∧ decodeKeyId (encodeKeyId 0x1234567890abcdef) = .ok 0x1234567890abcdef :=
  have h := keyId_codec_roundtrip 0x1234567890abcdef (by decide)
  ⟨by decide, h.1, h.2.2.2.1⟩

end Nyms
